import Mathlib

/-!
Verification of the test-tree reporter core (tree.js): an in-memory
hierarchy of test suite / test nodes whose lifecycle transitions are
serialized as teamcity-style protocol lines.  The JavaScript source is
shallowly embedded: the mutable object graph becomes an explicit
`Tree` state record (a flat array of node records indexed by creation
order, index 0 being the hidden root), methods become state-passing
functions returning the new state together with an optional thrown
error, and the output stream becomes a list of emitted lines.
-/

namespace WebStormTree

/-! ### Escaper (`doEscapeCharCode`, `isAttributeValueEscapingNeeded`,
`escapeAttributeValue` from the source).  The JS table is keyed by
UTF-16 char code; every key is a BMP code point, so keying directly by
`Char` is equivalent. -/

/-- Escape table of the source's `doEscapeCharCode`: the substitute
character for an escapable character, `none` otherwise. -/
def doEscapeCharCode (c : Char) : Option Char :=
  if c = '\n' then some 'n'
  else if c = '\r' then some 'r'
  else if c = '\u0085' then some 'x'
  else if c = '\u2028' then some 'l'
  else if c = '\u2029' then some 'p'
  else if c = '|' then some '|'
  else if c = '\'' then some '\''
  else if c = '[' then some '['
  else if c = ']' then some ']'
  else none

/-- Source `isAttributeValueEscapingNeeded`: whether some character of
the string has an escape mapping. -/
def isAttributeValueEscapingNeeded (str : String) : Bool :=
  str.data.any fun c => (doEscapeCharCode c).isSome

/-- The character-building loop of the source's `escapeAttributeValue`:
an escapable character contributes `'|'` followed by its substitute,
any other character contributes itself. -/
def escapeChars : List Char → List Char
  | [] => []
  | c :: rest =>
    match doEscapeCharCode c with
    | some e => '|' :: e :: escapeChars rest
    | none => c :: escapeChars rest

/-- Source `escapeAttributeValue`: returns the input itself when no
escapable character is present, otherwise rebuilds the string through
the escape loop. -/
def escapeAttributeValue (str : String) : String :=
  if !isAttributeValueEscapingNeeded str then str
  else String.mk (escapeChars str.data)

/-- Modelled from the claim's words (specification side of C2): the
designated two-character replacement of each escapable character —
newline ↦ `|n`, carriage return ↦ `|r`, U+0085 ↦ `|x`, U+2028 ↦ `|l`,
U+2029 ↦ `|p`, pipe ↦ `||`, quote ↦ `|` + quote, `[` ↦ `|[`,
`]` ↦ `|]` — and any other character maps to itself. -/
def specEscapeChar (c : Char) : List Char :=
  if c = '\n' then ['|', 'n']
  else if c = '\r' then ['|', 'r']
  else if c = '\u0085' then ['|', 'x']
  else if c = '\u2028' then ['|', 'l']
  else if c = '\u2029' then ['|', 'p']
  else if c = '|' then ['|', '|']
  else if c = '\'' then ['|', '\'']
  else if c = '[' then ['|', '[']
  else if c = ']' then ['|', ']']
  else [c]

/-- Decoder of the documented two-character scheme: the original
character a substitute stands for. -/
def unescapeCharCode (c : Char) : Option Char :=
  if c = 'n' then some '\n'
  else if c = 'r' then some '\r'
  else if c = 'x' then some '\u0085'
  else if c = 'l' then some '\u2028'
  else if c = 'p' then some '\u2029'
  else if c = '|' then some '|'
  else if c = '\'' then some '\''
  else if c = '[' then some '['
  else if c = ']' then some ']'
  else none

/-- Decoder over character lists: `'|'` must be followed by a valid
substitute, every other character decodes to itself. -/
def unescapeChars : List Char → Option (List Char)
  | [] => some []
  | c :: rest =>
    if c = '|' then
      match rest with
      | [] => none
      | e :: rest' =>
        match unescapeCharCode e with
        | some d => (unescapeChars rest').map fun l => d :: l
        | none => none
    else (unescapeChars rest).map fun l => c :: l

/-- Decoder over strings. -/
def unescapeAttributeValue (s : String) : Option String :=
  (unescapeChars s.data).map String.mk

theorem unescapeChars_plain (c : Char) (rest : List Char) (h : ¬c = '|') :
    unescapeChars (c :: rest) = (unescapeChars rest).map fun l => c :: l := by
  rw [unescapeChars.eq_def]
  simp [h]

theorem unescapeChars_pipe (e d : Char) (rest' : List Char)
    (hd : unescapeCharCode e = some d) :
    unescapeChars ('|' :: e :: rest') = (unescapeChars rest').map fun l => d :: l := by
  rw [unescapeChars.eq_def]
  simp [hd]

theorem escapeChars_eq_bind (l : List Char) :
    escapeChars l = l.flatMap specEscapeChar := by
  induction l with
  | nil => rfl
  | cons c rest ih =>
    by_cases h1 : c = '\n'
    · subst h1; simp [escapeChars, doEscapeCharCode, specEscapeChar, ih]
    by_cases h2 : c = '\r'
    · subst h2; simp [escapeChars, doEscapeCharCode, specEscapeChar, ih]
    by_cases h3 : c = '\u0085'
    · subst h3; simp [escapeChars, doEscapeCharCode, specEscapeChar, ih]
    by_cases h4 : c = '\u2028'
    · subst h4; simp [escapeChars, doEscapeCharCode, specEscapeChar, ih]
    by_cases h5 : c = '\u2029'
    · subst h5; simp [escapeChars, doEscapeCharCode, specEscapeChar, ih]
    by_cases h6 : c = '|'
    · subst h6; simp [escapeChars, doEscapeCharCode, specEscapeChar, ih]
    by_cases h7 : c = '\''
    · subst h7; simp [escapeChars, doEscapeCharCode, specEscapeChar, ih]
    by_cases h8 : c = '['
    · subst h8; simp [escapeChars, doEscapeCharCode, specEscapeChar, ih]
    by_cases h9 : c = ']'
    · subst h9; simp [escapeChars, doEscapeCharCode, specEscapeChar, ih]
    simp [escapeChars, doEscapeCharCode, specEscapeChar, h1, h2, h3, h4, h5,
      h6, h7, h8, h9, ih]

theorem escapeChars_id_of_safe (l : List Char)
    (h : ∀ c ∈ l, doEscapeCharCode c = none) : escapeChars l = l := by
  induction l with
  | nil => rfl
  | cons c rest ih =>
    have hc : doEscapeCharCode c = none := h c (List.mem_cons_self c rest)
    have hrest : ∀ c ∈ rest, doEscapeCharCode c = none :=
      fun d hd => h d (List.mem_cons_of_mem c hd)
    simp [escapeChars, hc, ih hrest]

theorem escapeAttributeValue_eq_mk (s : String) :
    escapeAttributeValue s = String.mk (escapeChars s.data) := by
  rw [escapeAttributeValue]
  by_cases h : isAttributeValueEscapingNeeded s
  · simp [h]
  · have hsafe : ∀ c ∈ s.data, doEscapeCharCode c = none := by
      simpa [isAttributeValueEscapingNeeded] using h
    simp [h, escapeChars_id_of_safe s.data hsafe]

theorem escapeAttributeValue_eq_bind (s : String) :
    escapeAttributeValue s = String.mk (s.data.flatMap specEscapeChar) := by
  rw [escapeAttributeValue_eq_mk, escapeChars_eq_bind]

theorem escapeAttributeValue_id_of_safe (s : String)
    (h : isAttributeValueEscapingNeeded s = false) : escapeAttributeValue s = s := by
  simp [escapeAttributeValue, h]

theorem unescapeChars_escapeChars (l : List Char) :
    unescapeChars (escapeChars l) = some l := by
  induction l with
  | nil => rfl
  | cons c rest ih =>
    by_cases h1 : c = '\n'
    · subst h1
      have he : escapeChars ('\n' :: rest) = '|' :: 'n' :: escapeChars rest := by
        simp [escapeChars, doEscapeCharCode]
      rw [he, unescapeChars_pipe 'n' '\n' _ (by decide), ih]
      rfl
    by_cases h2 : c = '\r'
    · subst h2
      have he : escapeChars ('\r' :: rest) = '|' :: 'r' :: escapeChars rest := by
        simp [escapeChars, doEscapeCharCode]
      rw [he, unescapeChars_pipe 'r' '\r' _ (by decide), ih]
      rfl
    by_cases h3 : c = '\u0085'
    · subst h3
      have he : escapeChars ('\u0085' :: rest) = '|' :: 'x' :: escapeChars rest := by
        simp [escapeChars, doEscapeCharCode]
      rw [he, unescapeChars_pipe 'x' '\u0085' _ (by decide), ih]
      rfl
    by_cases h4 : c = '\u2028'
    · subst h4
      have he : escapeChars ('\u2028' :: rest) = '|' :: 'l' :: escapeChars rest := by
        simp [escapeChars, doEscapeCharCode]
      rw [he, unescapeChars_pipe 'l' '\u2028' _ (by decide), ih]
      rfl
    by_cases h5 : c = '\u2029'
    · subst h5
      have he : escapeChars ('\u2029' :: rest) = '|' :: 'p' :: escapeChars rest := by
        simp [escapeChars, doEscapeCharCode]
      rw [he, unescapeChars_pipe 'p' '\u2029' _ (by decide), ih]
      rfl
    by_cases h6 : c = '|'
    · subst h6
      have he : escapeChars ('|' :: rest) = '|' :: '|' :: escapeChars rest := by
        simp [escapeChars, doEscapeCharCode]
      rw [he, unescapeChars_pipe '|' '|' _ (by decide), ih]
      rfl
    by_cases h7 : c = '\''
    · subst h7
      have he : escapeChars ('\'' :: rest) = '|' :: '\'' :: escapeChars rest := by
        simp [escapeChars, doEscapeCharCode]
      rw [he, unescapeChars_pipe '\'' '\'' _ (by decide), ih]
      rfl
    by_cases h8 : c = '['
    · subst h8
      have he : escapeChars ('[' :: rest) = '|' :: '[' :: escapeChars rest := by
        simp [escapeChars, doEscapeCharCode]
      rw [he, unescapeChars_pipe '[' '[' _ (by decide), ih]
      rfl
    by_cases h9 : c = ']'
    · subst h9
      have he : escapeChars (']' :: rest) = '|' :: ']' :: escapeChars rest := by
        simp [escapeChars, doEscapeCharCode]
      rw [he, unescapeChars_pipe ']' ']' _ (by decide), ih]
      rfl
    have hc : doEscapeCharCode c = none := by
      simp [doEscapeCharCode, h1, h2, h3, h4, h5, h6, h7, h8, h9]
    have he : escapeChars (c :: rest) = c :: escapeChars rest := by
      simp [escapeChars, hc]
    rw [he, unescapeChars_plain c _ h6, ih]
    rfl

theorem unescape_escape (s : String) :
    unescapeAttributeValue (escapeAttributeValue s) = some s := by
  rw [escapeAttributeValue_eq_mk, unescapeAttributeValue]
  show (unescapeChars (escapeChars s.data)).map String.mk = some s
  rw [unescapeChars_escapeChars]
  rfl

/-! ### Data model.  The JS object graph (`Tree`, `Node`,
`TestSuiteNode`, `TestNode`) becomes one state record holding a flat
list of node records; a node is referred to by its position in that
list (creation order, position 0 = the hidden root), mirroring the JS
object references.  The name-keyed `lookupMap` of `TestSuiteNode` and
`findChildNodeByName` feed no claim and are not embedded. -/

/-- Lifecycle states of the source's `NodeState`. -/
inductive NodeState
  | created
  | registered
  | started
  | finished
deriving DecidableEq

/-- The `name` of each `NodeState` singleton (used in error text). -/
def NodeState.name : NodeState → String
  | .created => "created"
  | .registered => "registered"
  | .started => "started"
  | .finished => "finished"

/-- The source's `TestOutcome` singletons. -/
inductive TestOutcome
  | success
  | skipped
  | failed
  | error
deriving DecidableEq

/-- A node id: the JS code stores the allocated counter value as a
number, or as the string `prefix + '-' + counter` when the tree was
constructed with an id prefix. -/
inductive NodeIdent
  | num (n : Nat)
  | withPrefix (p : String) (n : Nat)
deriving DecidableEq

/-- The id exactly as it is rendered into a protocol line. -/
def NodeIdent.render : NodeIdent → String
  | .num n => toString n
  | .withPrefix p n => p ++ "-" ++ toString n

/-- The underlying allocated counter value of an id. -/
def NodeIdent.idNum : NodeIdent → Nat
  | .num n => n
  | .withPrefix _ n => n

/-- The leaf-only fields of the source's `TestNode` constructor; a JS
value that is `undefined`/`null` is `none`. -/
structure LeafFields where
  outcome : Option TestOutcome := none
  durationMillis : Option Int := none
  failureMsg : Option String := none
  failureDetails : Option String := none
  expectedStr : Option String := none
  actualStr : Option String := none
  expectedFilePath : Option String := none
  actualFilePath : Option String := none
  metainfo : Option String := none
deriving DecidableEq

/-- The two node variants: `TestSuiteNode` (with its `children` list of
node positions and `finishedChildCount`) and `TestNode`. -/
inductive NodeKind
  | suite (children : List Nat) (finishedChildCount : Nat)
  | test (fields : LeafFields)
deriving DecidableEq

/-- The per-node fields of the source's `Node` constructor (`type`
is called `nodeType` here; `tree` is implicit in the state record,
`parent` is the parent's position in the node list). -/
structure NodeData where
  ident : NodeIdent
  parent : Option Nat
  name : String
  nodeType : Option String
  locationPath : Option String
  state : NodeState
  kind : NodeKind
deriving DecidableEq

/-- One line sent through `writeln`.  `text` is exactly the string the
source writes; `subject` is ghost instrumentation recording which
node's id the message carries as its `nodeId` attribute (`none` for
session-level lines that carry no `nodeId`). -/
structure OutLine where
  text : String
  subject : Option NodeIdent
deriving DecidableEq

/-- The whole mutable state of one `Tree` instance. -/
structure Tree where
  idPrefix : Option String
  nextId : Nat
  nodes : List NodeData
  output : List OutLine
deriving DecidableEq

/-- A thrown JS error: `thrown` for an explicit `throw Error(msg)`,
`typeError` for a runtime TypeError (property access on undefined,
calling a missing method). -/
inductive Err
  | thrown (msg : String)
  | typeError (msg : String)
deriving DecidableEq

/-- The hidden root suite created by the `Tree` constructor:
`new TestSuiteNode(this, 0, null, 'hidden root', null, null)`. -/
def rootNode : NodeData :=
  { ident := .num 0, parent := none, name := "hidden root", nodeType := none,
    locationPath := none, state := .created, kind := .suite [] 0 }

/-- The `Tree` constructor: root at position 0, `nextId` starts at 1. -/
def Tree.new (idPref : Option String) : Tree :=
  { idPrefix := idPref, nextId := 1, nodes := [rootNode], output := [] }

/-- The node at a position, if any. -/
def Tree.node? (t : Tree) (idx : Nat) : Option NodeData :=
  t.nodes[idx]?

/-- Replace the node record at a position (a JS field mutation). -/
def Tree.setNode (t : Tree) (idx : Nat) (n : NodeData) : Tree :=
  { t with nodes := t.nodes.set idx n }

/-- Append one line to the output sink. -/
def Tree.writeln (t : Tree) (line : OutLine) : Tree :=
  { t with output := t.output ++ [line] }

/-- Source `isString` specialised to the string-or-null values the
embedding passes around. -/
def isString : Option String → Bool
  | some _ => true
  | none => false

/-! ### Protocol message builders, following the source's
`getInitMessage`, `getStartMessage`, `getFinishMessage` and the
variant-specific command-name / extra-parameter hooks. -/

/-- `getStartCommandName` of the two variants. -/
def NodeKind.getStartCommandName : NodeKind → String
  | .suite _ _ => "testSuiteStarted"
  | .test _ => "testStarted"

/-- The `metainfo` property read by `getInitMessage`: only a
`TestNode` ever has one (on a suite it is `undefined`). -/
def NodeData.metainfo (n : NodeData) : Option String :=
  match n.kind with
  | .suite _ _ => none
  | .test f => f.metainfo

/-- JS string rendering of a boolean. -/
def boolStr : Bool → String
  | true => "true"
  | false => "false"

/-- Rendering of `this.parent ? this.parent.id : 0` (the dangling-index
fallback to "0" is unreachable: children are only created with an
existing parent). -/
def Tree.parentIdStr (t : Tree) (n : NodeData) : String :=
  match n.parent with
  | none => "0"
  | some p =>
    match t.node? p with
    | some pn => pn.ident.render
    | none => "0"

/-- Source `getInitMessage`: the full registration/start line, with
`nodeType`, `locationHint` (only when a type is present) and
`metainfo` appended conditionally. -/
def getInitMessage (t : Tree) (n : NodeData) (running : Bool) : String :=
  let text := "##teamcity[" ++ n.kind.getStartCommandName
    ++ " nodeId='" ++ n.ident.render
    ++ "' parentNodeId='" ++ t.parentIdStr n
    ++ "' name='" ++ escapeAttributeValue n.name
    ++ "' running='" ++ boolStr running
  let text :=
    match n.nodeType, n.locationPath with
    | some ty, some lp =>
        text ++ "' nodeType='" ++ ty
          ++ "' locationHint='" ++ escapeAttributeValue (ty ++ "://" ++ lp)
    | some ty, none => text ++ "' nodeType='" ++ ty
    | none, _ => text
  let text :=
    match n.metainfo with
    | some mi => text ++ "' metainfo='" ++ escapeAttributeValue mi
    | none => text
  text ++ "']"

/-- Source `getStartMessage`: init form from Created, lightweight
re-start form from Registered, a thrown error otherwise. -/
def getStartMessage (t : Tree) (n : NodeData) : Except Err String :=
  if n.state = .created then .ok (getInitMessage t n true)
  else if n.state = .registered then
    .ok ("##teamcity[" ++ n.kind.getStartCommandName ++ " nodeId='"
      ++ n.ident.render ++ "' running='true']")
  else .error (.thrown ("Unexpected node state: " ++ n.state.name))

/-- Source `getFinishCommandName`: fixed for suites, outcome-dependent
for tests, a thrown error when a test has no outcome. -/
def NodeData.getFinishCommandName (n : NodeData) : Except Err String :=
  match n.kind with
  | .suite _ _ => .ok "testSuiteFinished"
  | .test f =>
    match f.outcome with
    | some .success => .ok "testFinished"
    | some .skipped => .ok "testIgnored"
    | some .failed => .ok "testFailed"
    | some .error => .ok "testFailed"
    | none => .error (.thrown "Unexpected outcome: undefined")

/-- Source `getExtraFinishMessageParameters`: `null` for suites; for
tests each optional attribute is appended when its field is set, and
the empty accumulation is returned as `null`. -/
def NodeData.getExtraFinishMessageParameters (n : NodeData) : Option String :=
  match n.kind with
  | .suite _ _ => none
  | .test f =>
    let params := ""
    let params :=
      match f.durationMillis with
      | some d => params ++ " duration='" ++ toString d ++ "'"
      | none => params
    let params := if f.outcome = some .error then params ++ " error='yes'" else params
    let params :=
      match f.failureMsg with
      | some m => params ++ " message='" ++ escapeAttributeValue m ++ "'"
      | none => params
    let params :=
      match f.failureDetails with
      | some m => params ++ " details='" ++ escapeAttributeValue m ++ "'"
      | none => params
    let params :=
      match f.expectedStr with
      | some m => params ++ " expected='" ++ escapeAttributeValue m ++ "'"
      | none => params
    let params :=
      match f.actualStr with
      | some m => params ++ " actual='" ++ escapeAttributeValue m ++ "'"
      | none => params
    let params :=
      match f.expectedFilePath with
      | some m => params ++ " expectedFile='" ++ escapeAttributeValue m ++ "'"
      | none => params
    let params :=
      match f.actualFilePath with
      | some m => params ++ " actualFile='" ++ escapeAttributeValue m ++ "'"
      | none => params
    if params = "" then none else some params

/-- Source `getFinishMessage`. -/
def NodeData.getFinishMessage (n : NodeData) : Except Err String :=
  match n.getFinishCommandName with
  | .error e => .error e
  | .ok cmd =>
    let text := "##teamcity[" ++ cmd ++ " nodeId='" ++ n.ident.render ++ "'"
    let text :=
      match n.getExtraFinishMessageParameters with
      | some extra => text ++ extra
      | none => text
    .ok (text ++ "]")

/-! ### Node operations.  Each returns the state after the call and,
when the JS method throws, the error; mutations performed before a
throw persist, as they do in JS. -/

/-- Source `Node.prototype.register`: `getRegisterMessage` (legal only
from Created, throws otherwise, before anything is written), then
write the init line and move to Registered. -/
def Node.register (idx : Nat) (t : Tree) : Tree × Option Err :=
  match t.node? idx with
  | none => (t, some (.typeError "undefined node"))
  | some n =>
    if n.state = .created then
      let t1 := t.writeln ⟨getInitMessage t n false, some n.ident⟩
      (t1.setNode idx { n with state := .registered }, none)
    else (t, some (.thrown ("Unexpected node state: " ++ n.state.name)))

/-- Source `Node.prototype.start`: throws on a Finished node, is a
silent no-op on a Started one, otherwise writes the start line and
moves to Started. -/
def Node.start (idx : Nat) (t : Tree) : Tree × Option Err :=
  match t.node? idx with
  | none => (t, some (.typeError "undefined node"))
  | some n =>
    if n.state = .finished then (t, some (.thrown "Cannot start finished node"))
    else if n.state = .started then (t, none)
    else
      match getStartMessage t n with
      | .error e => (t, some e)
      | .ok text =>
        let t1 := t.writeln ⟨text, some n.ident⟩
        (t1.setNode idx { n with state := .started }, none)

/-- Source `Node.prototype.finish` together with the
`TestSuiteNode.prototype.onChildFinished` it may invoke on the parent
(inlined here because the two recurse into each other up the parent
chain).  `fuel` only bounds that recursion: a parent's position is
strictly below its child's in every reachable state, so the wrapper's
`idx + 1` never runs out.  Steps, in source order: the hidden root
returns silently; a node neither Registered nor Started throws;
`getFinishMessage` may throw (test without outcome); the finish line
is written and the node moves to Finished; with `finishParentIfLast`
and a non-root parent, the parent's `finishedChildCount` is
incremented and, when it reaches the child count of a not yet
Finished parent, the parent is finished with propagation. -/
def finishGo : Nat → Nat → Bool → Tree → Tree × Option Err
  | 0, _, _, t => (t, some (.typeError "fuel exhausted: cyclic parent chain"))
  | Nat.succ fuel, idx, finishParentIfLast, t =>
    match t.node? idx with
    | none => (t, some (.typeError "undefined node"))
    | some n =>
      if idx = 0 then (t, none)
      else if n.state ≠ .registered ∧ n.state ≠ .started then
        (t, some (.thrown ("Unexpected node state: " ++ n.state.name)))
      else
        match n.getFinishMessage with
        | .error e => (t, some e)
        | .ok text =>
          let t1 := t.writeln ⟨text, some n.ident⟩
          let t2 := t1.setNode idx { n with state := .finished }
          if finishParentIfLast then
            match n.parent with
            | some p =>
              if p ≠ 0 then
                match t2.node? p with
                | some pn =>
                  match pn.kind with
                  | .suite children cnt =>
                    let t3 := t2.setNode p { pn with kind := .suite children (cnt + 1) }
                    if cnt + 1 = children.length ∧ pn.state ≠ .finished then
                      finishGo fuel p true t3
                    else (t3, none)
                  | .test _ => (t2, some (.typeError "onChildFinished is not a function"))
                | none => (t2, some (.typeError "undefined node"))
              else (t2, none)
            | none => (t2, none)
          else (t2, none)

/-- Source `Node.prototype.finish(finishParentIfLast)`. -/
def Node.finish (idx : Nat) (finishParentIfLast : Bool) (t : Tree) : Tree × Option Err :=
  finishGo (idx + 1) idx finishParentIfLast t

/-- Source `Node.prototype.finishIfStarted`, processing a worklist of
node positions in order (the entry point is the singleton list).  A
Finished node is skipped.  Any other node first has the loop
`for (i = 0; i < this.children.length; i++) children[i].finishIfStarted()`
applied — on a `TestNode`, which has no `children` property, reading
`.length` of `undefined` throws a TypeError — and is then finished
with no propagation (`this.finish()`).  A thrown error aborts the
rest of the list, as in JS.  `fuel` ticks down on every recursive
call, worklist steps included, only to make the recursion structural;
the wrapper passes more than any acyclic tree can consume. -/
def finishListGo : Nat → List Nat → Tree → Tree × Option Err
  | 0, _, t => (t, some (.typeError "fuel exhausted: cyclic children"))
  | Nat.succ _, [], t => (t, none)
  | Nat.succ fuel, idx :: rest, t =>
    match t.node? idx with
    | none => (t, some (.typeError "undefined node"))
    | some n =>
      if n.state ≠ .finished then
        match n.kind with
        | .test _ =>
          (t, some (.typeError "Cannot read property 'length' of undefined"))
        | .suite children _ =>
          match finishListGo fuel children t with
          | (t1, some e) => (t1, some e)
          | (t1, none) =>
            match finishGo (idx + 1) idx false t1 with
            | (t2, some e) => (t2, some e)
            | (t2, none) => finishListGo fuel rest t2
      else finishListGo fuel rest t

/-- Source `Node.prototype.finishIfStarted` on one node; the recursion
visits each node of the subtree once and each worklist entry once, so
`(length + 1)²` fuel is more than any acyclic tree can use. -/
def Node.finishIfStarted (idx : Nat) (t : Tree) : Tree × Option Err :=
  finishListGo ((t.nodes.length + 1) * (t.nodes.length + 1)) [idx] t

/-! ### Suite operations. -/

/-- The id allocation shared by both child-creation methods:
`var childId = this.tree.nextId++` and, when an id prefix is
configured, `childId = this.tree.idPrefix + '-' + childId`. -/
def Tree.allocIdent (t : Tree) : NodeIdent :=
  match t.idPrefix with
  | some pre => .withPrefix pre t.nextId
  | none => .num t.nextId

/-- Source `TestSuiteNode.prototype.addTestChild`: throws on a
Finished suite, otherwise allocates the next id, appends a fresh
`TestNode` as the last node record and links it into the suite's
`children`.  The new child's position is the old node-list length. -/
def TestSuiteNode.addTestChild (p : Nat) (childName : String)
    (nodeType locationPath : Option String) (t : Tree) : Tree × Option Err :=
  match t.node? p with
  | none => (t, some (.typeError "undefined node"))
  | some pn =>
    match pn.kind with
    | .test _ => (t, some (.typeError "addTestChild is not a function"))
    | .suite children cnt =>
      if pn.state = .finished then
        (t, some (.thrown "Child node cannot be created for finished nodes!"))
      else
        let child : NodeData :=
          { ident := t.allocIdent, parent := some p, name := childName,
            nodeType := nodeType, locationPath := locationPath,
            state := .created, kind := .test {} }
        let newIdx := t.nodes.length
        ({ t with nextId := t.nextId + 1,
                  nodes := (t.nodes.set p
                    { pn with kind := .suite (children ++ [newIdx]) cnt }) ++ [child] },
         none)

/-- Source `TestSuiteNode.prototype.addTestSuiteChild`: as
`addTestChild` but the child is a fresh `TestSuiteNode`. -/
def TestSuiteNode.addTestSuiteChild (p : Nat) (childName : String)
    (nodeType locationPath : Option String) (t : Tree) : Tree × Option Err :=
  match t.node? p with
  | none => (t, some (.typeError "undefined node"))
  | some pn =>
    match pn.kind with
    | .test _ => (t, some (.typeError "addTestSuiteChild is not a function"))
    | .suite children cnt =>
      if pn.state = .finished then
        (t, some (.thrown "Child node cannot be created for finished nodes!"))
      else
        let child : NodeData :=
          { ident := t.allocIdent, parent := some p, name := childName,
            nodeType := nodeType, locationPath := locationPath,
            state := .created, kind := .suite [] 0 }
        let newIdx := t.nodes.length
        ({ t with nextId := t.nextId + 1,
                  nodes := (t.nodes.set p
                    { pn with kind := .suite (children ++ [newIdx]) cnt }) ++ [child] },
         none)

/-! ### Leaf operations. -/

/-- JS truthiness of a string-or-null value (`!failureMsg`): falsy when
absent or empty. -/
def strFalsy : Option String → Bool
  | none => true
  | some s => s = ""

/-- Source `TestNode.prototype.setOutcome`: throws when an outcome is
already set (before touching anything); otherwise assigns outcome,
duration and messages, normalises the expected/actual fields through
`isString`, and synthesises the pending message for a Skipped outcome
with a falsy failure message. -/
def TestNode.setOutcome (idx : Nat) (outcome : TestOutcome)
    (durationMillis : Option Int)
    (failureMsg failureDetails expectedStr actualStr
      expectedFilePath actualFilePath : Option String)
    (t : Tree) : Tree × Option Err :=
  match t.node? idx with
  | none => (t, some (.typeError "undefined node"))
  | some n =>
    match n.kind with
    | .suite _ _ => (t, some (.typeError "setOutcome is not a function"))
    | .test f =>
      if f.outcome.isSome then
        (t, some (.thrown "Test outcome has already been set!"))
      else
        let f1 : LeafFields :=
          { f with
            outcome := some outcome,
            durationMillis := durationMillis,
            failureMsg := failureMsg,
            failureDetails := failureDetails,
            expectedStr := if isString expectedStr then expectedStr else none,
            actualStr := if isString actualStr then actualStr else none,
            expectedFilePath := if isString expectedFilePath then expectedFilePath else none,
            actualFilePath := if isString actualFilePath then actualFilePath else none }
        let f2 :=
          if outcome = .skipped ∧ strFalsy failureMsg then
            { f1 with failureMsg := some ("Pending test '" ++ n.name ++ "'") }
          else f1
        (t.setNode idx { n with kind := .test f2 }, none)

/-- Source `TestNode.prototype.setMetainfo`. -/
def TestNode.setMetainfo (idx : Nat) (metainfo : Option String) (t : Tree) :
    Tree × Option Err :=
  match t.node? idx with
  | none => (t, some (.typeError "undefined node"))
  | some n =>
    match n.kind with
    | .suite _ _ => (t, some (.typeError "setMetainfo is not a function"))
    | .test f => (t.setNode idx { n with kind := .test { f with metainfo := metainfo } }, none)

/-- Source `TestNode.prototype.addStdErr`: when the argument is a
string (empty or not) it writes one immediate `testStdErr` line with
the node's id and the escaped text; otherwise nothing happens.  No
node field is read or changed beyond `id` and `tree`. -/
def TestNode.addStdErr (idx : Nat) (err : Option String) (t : Tree) :
    Tree × Option Err :=
  match t.node? idx with
  | none => (t, some (.typeError "undefined node"))
  | some n =>
    match n.kind with
    | .suite _ _ => (t, some (.typeError "addStdErr is not a function"))
    | .test _ =>
      match err with
      | some s =>
        (t.writeln ⟨"##teamcity[testStdErr nodeId='" ++ n.ident.render
          ++ "' out='" ++ escapeAttributeValue s ++ "']", some n.ident⟩, none)
      | none => (t, none)

/-! ### Session-level tree operations. -/

/-- Source `Tree.prototype.startNotify`. -/
def Tree.startNotify (t : Tree) : Tree :=
  t.writeln ⟨"##teamcity[enteredTheMatrix]", none⟩

/-- Source `Tree.prototype.updateRootNode`. -/
def Tree.updateRootNode (t : Tree) (name : String) (comment location : Option String) :
    Tree :=
  let str := "##teamcity[" ++ "rootName name='" ++ escapeAttributeValue name
  let str :=
    match comment with
    | some c => str ++ "' comment='" ++ escapeAttributeValue c
    | none => str
  let str :=
    match location with
    | some l => str ++ "' location='" ++ escapeAttributeValue l
    | none => str
  t.writeln ⟨str ++ "']", none⟩

/-- Source `Tree.prototype.addTotalTestCount`: writes only for a
positive number. -/
def Tree.addTotalTestCount (t : Tree) (totalTestCount : Int) : Tree :=
  if totalTestCount > 0 then
    t.writeln ⟨"##teamcity[testCount count='" ++ toString totalTestCount ++ "']", none⟩
  else t

/-- Source `Tree.prototype.testingStarted`. -/
def Tree.testingStarted (t : Tree) : Tree :=
  t.writeln ⟨"##teamcity[testingStarted]", none⟩

/-- Source `Tree.prototype.testingFinished`. -/
def Tree.testingFinished (t : Tree) : Tree :=
  t.writeln ⟨"##teamcity[testingFinished]", none⟩

/-! ### Operation alphabet: everything a caller can invoke on a tree
through its public API, for quantifying over call interleavings. -/

/-- One public-API call. -/
inductive Op
  | register (idx : Nat)
  | start (idx : Nat)
  | finish (idx : Nat) (finishParentIfLast : Bool)
  | finishIfStarted (idx : Nat)
  | addTestChild (p : Nat) (childName : String) (nodeType locationPath : Option String)
  | addTestSuiteChild (p : Nat) (childName : String) (nodeType locationPath : Option String)
  | setOutcome (idx : Nat) (outcome : TestOutcome) (durationMillis : Option Int)
      (failureMsg failureDetails expectedStr actualStr
        expectedFilePath actualFilePath : Option String)
  | setMetainfo (idx : Nat) (metainfo : Option String)
  | addStdErr (idx : Nat) (err : Option String)
  | startNotify
  | updateRootNode (name : String) (comment location : Option String)
  | addTotalTestCount (n : Int)
  | testingStarted
  | testingFinished
deriving DecidableEq

/-- Apply one call to the state.  The error, when any, is what the
call throws; the state carries every mutation made before the throw. -/
def applyOp : Op → Tree → Tree × Option Err
  | .register idx, t => Node.register idx t
  | .start idx, t => Node.start idx t
  | .finish idx b, t => Node.finish idx b t
  | .finishIfStarted idx, t => Node.finishIfStarted idx t
  | .addTestChild p cn ty lp, t => TestSuiteNode.addTestChild p cn ty lp t
  | .addTestSuiteChild p cn ty lp, t => TestSuiteNode.addTestSuiteChild p cn ty lp t
  | .setOutcome idx o d m dt e a ef af, t => TestNode.setOutcome idx o d m dt e a ef af t
  | .setMetainfo idx mi, t => TestNode.setMetainfo idx mi t
  | .addStdErr idx err, t => TestNode.addStdErr idx err t
  | .startNotify, t => (t.startNotify, none)
  | .updateRootNode nm c l, t => (t.updateRootNode nm c l, none)
  | .addTotalTestCount n, t => (t.addTotalTestCount n, none)
  | .testingStarted, t => (t.testingStarted, none)
  | .testingFinished, t => (t.testingFinished, none)

/-- Run a call sequence; a caller that catches a thrown error and goes
on sees exactly this state. -/
def run (ops : List Op) (t : Tree) : Tree :=
  ops.foldl (fun t op => (applyOp op t).1) t

/-! ### Generic state-access lemmas. -/

theorem Tree.node?_writeln (t : Tree) (l : OutLine) (i : Nat) :
    (t.writeln l).node? i = t.node? i := rfl

theorem Tree.lt_length_of_node? (t : Tree) (i : Nat) (n : NodeData)
    (h : t.node? i = some n) : i < t.nodes.length := by
  by_contra hc
  push_neg at hc
  rw [Tree.node?, List.getElem?_eq_none hc] at h
  cases h

theorem Tree.node?_setNode_self (t : Tree) (i : Nat) (n m : NodeData)
    (h : t.node? i = some n) : (t.setNode i m).node? i = some m := by
  have hlt := t.lt_length_of_node? i n h
  simp [Tree.node?, Tree.setNode, List.getElem?_set_eq_of_lt _ hlt]

theorem Tree.node?_setNode_ne (t : Tree) (i j : Nat) (m : NodeData)
    (h : i ≠ j) : (t.setNode i m).node? j = t.node? j := by
  simp [Tree.node?, Tree.setNode, List.getElem?_set_ne h]

theorem getFinishMessage_mk_suite (i : NodeIdent) (pa : Option Nat) (nm : String)
    (ty lp : Option String) (st : NodeState) (ch : List Nat) (cnt : Nat) :
    NodeData.getFinishMessage ⟨i, pa, nm, ty, lp, st, .suite ch cnt⟩ =
      Except.ok ("##teamcity[" ++ "testSuiteFinished" ++ " nodeId='"
        ++ i.render ++ "'" ++ "]") := rfl

theorem getFinishMessage_suite (m : NodeData) (ch : List Nat) (cnt : Nat)
    (hk : m.kind = .suite ch cnt) :
    m.getFinishMessage =
      Except.ok ("##teamcity[" ++ "testSuiteFinished" ++ " nodeId='"
        ++ m.ident.render ++ "'" ++ "]") := by
  simp [NodeData.getFinishMessage, NodeData.getFinishCommandName,
    NodeData.getExtraFinishMessageParameters, hk]

/-! ### The claims. -/

/-- C2: `escapeAttributeValue` replaces every occurrence of newline,
carriage return, U+0085, U+2028, U+2029, pipe, single quote, `[` and
`]` by `'|'` followed by its designated substitute, leaves every other
character unchanged (the output is the concatenation of the
per-character replacements of `specEscapeChar`), and returns the input
itself when no escapable character is present. -/
theorem escape_replaces_each_char (s : String) :
    escapeAttributeValue s = String.mk (s.data.flatMap specEscapeChar) ∧
    (isAttributeValueEscapingNeeded s = false → escapeAttributeValue s = s) :=
  ⟨escapeAttributeValue_eq_bind s, escapeAttributeValue_id_of_safe s⟩

/-- C2 witness: concrete evaluations — an input with escapable
characters rewritten per the table, and a safe input returned as is. -/
theorem escape_replaces_each_char_witness :
    escapeAttributeValue "a[b]\n" = String.mk ("a[b]\n".data.flatMap specEscapeChar) ∧
    isAttributeValueEscapingNeeded "abc" = false ∧
    escapeAttributeValue "abc" = "abc" :=
  ⟨(escape_replaces_each_char "a[b]\n").1, by decide,
    (escape_replaces_each_char "abc").2 (by decide)⟩

/-- C7: for every string the escaped output decodes back to the
original under the two-character scheme (so escaping is injective),
and a string with no escapable character is returned unchanged. -/
theorem escape_decodes_uniquely (s : String) :
    unescapeAttributeValue (escapeAttributeValue s) = some s ∧
    (∀ u, escapeAttributeValue s = escapeAttributeValue u → s = u) ∧
    (isAttributeValueEscapingNeeded s = false → escapeAttributeValue s = s) := by
  refine ⟨unescape_escape s, ?_, escapeAttributeValue_id_of_safe s⟩
  intro u h
  have h1 := unescape_escape s
  have h2 := unescape_escape u
  rw [h] at h1
  exact Option.some.inj (h1.symm.trans h2)

/-- C7 witness: concrete round trip through the decoder, injectivity
instance, and identity on a safe input. -/
theorem escape_decodes_uniquely_witness :
    unescapeAttributeValue (escapeAttributeValue "x|y'z") = some "x|y'z" ∧
    ("x|y'z" : String) = "x|y'z" ∧
    isAttributeValueEscapingNeeded "xy" = false ∧
    escapeAttributeValue "xy" = "xy" :=
  ⟨(escape_decodes_uniquely "x|y'z").1,
    (escape_decodes_uniquely "x|y'z").2.1 "x|y'z" rfl,
    by decide,
    (escape_decodes_uniquely "xy").2.2 (by decide)⟩

/-- C1 counterexample: the hidden root of a fresh tree is a node in
the Created state, yet `finish()` on it does not fail — it returns
silently with no error and no change, because `finish` special-cases
the tree root before the state check. -/
theorem finish_created_root_no_error :
    (Tree.new none).node? 0 = some rootNode ∧
    rootNode.state = NodeState.created ∧
    Node.finish 0 false (Tree.new none) = (Tree.new none, none) :=
  ⟨rfl, rfl, rfl⟩

/-- C1 (amended): for every node other than the hidden root, `finish()`
in the Created state throws the IllegalState error (on the root it is a
silent no-op); `start()` on a Finished node throws; `start()` on an
already Started node is a no-op emitting nothing; and a first
successful `start()` (from Created or Registered) emits exactly one
line and moves the node to Started. -/
theorem start_finish_state_machine (t : Tree) (idx : Nat) (n : NodeData)
    (h : t.node? idx = some n) (b : Bool) :
    (idx ≠ 0 → n.state = .created →
      Node.finish idx b t = (t, some (.thrown "Unexpected node state: created"))) ∧
    (idx = 0 → Node.finish idx b t = (t, none)) ∧
    (n.state = .finished →
      Node.start idx t = (t, some (.thrown "Cannot start finished node"))) ∧
    (n.state = .started → Node.start idx t = (t, none)) ∧
    ((n.state = .created ∨ n.state = .registered) →
      ∃ line, Node.start idx t = ((t.writeln line).setNode idx { n with state := .started }, none) ∧
        (Node.start idx t).1.output = t.output ++ [line]) := by
  refine ⟨?_, ?_, ?_, ?_, ?_⟩
  · intro h0 hs
    simp [Node.finish, finishGo, h, h0, hs]
    rfl
  · intro h0
    subst h0
    simp [Node.finish, finishGo, h]
  · intro hs
    simp [Node.start, h, hs]
  · intro hs
    simp [Node.start, h, hs]
  · rintro (hs | hs)
    · refine ⟨⟨getInitMessage t n true, some n.ident⟩, ?_, ?_⟩ <;>
        simp [Node.start, h, hs, getStartMessage, Tree.setNode, Tree.writeln]
    · refine ⟨⟨"##teamcity[" ++ n.kind.getStartCommandName ++ " nodeId='"
        ++ n.ident.render ++ "' running='true']", some n.ident⟩, ?_, ?_⟩ <;>
        simp [Node.start, h, hs, getStartMessage, Tree.setNode, Tree.writeln]

/-- A small fixed state exercising every branch of C1: node 1 Created,
node 2 Finished, node 3 Started, node 4 Registered. -/
def c1tree : Tree :=
  { idPrefix := none, nextId := 5,
    nodes := [rootNode,
      { ident := .num 1, parent := some 0, name := "a", nodeType := none,
        locationPath := none, state := .created, kind := .suite [] 0 },
      { ident := .num 2, parent := some 0, name := "b", nodeType := none,
        locationPath := none, state := .finished, kind := .suite [] 0 },
      { ident := .num 3, parent := some 0, name := "c", nodeType := none,
        locationPath := none, state := .started, kind := .suite [] 0 },
      { ident := .num 4, parent := some 0, name := "d", nodeType := none,
        locationPath := none, state := .registered, kind := .suite [] 0 }],
    output := [] }

/-- C1 witness: the amended theorem applied to `c1tree`, discharging
every hypothesis at concrete nodes. -/
theorem start_finish_state_machine_witness :
    Node.finish 1 false c1tree = (c1tree, some (.thrown "Unexpected node state: created")) ∧
    Node.finish 0 false c1tree = (c1tree, none) ∧
    Node.start 2 c1tree = (c1tree, some (.thrown "Cannot start finished node")) ∧
    Node.start 3 c1tree = (c1tree, none) ∧
    ∃ line, Node.start 4 c1tree =
        ((c1tree.writeln line).setNode 4
          { ident := .num 4, parent := some 0, name := "d", nodeType := none,
            locationPath := none, state := .started, kind := .suite [] 0 }, none) ∧
      (Node.start 4 c1tree).1.output = c1tree.output ++ [line] :=
  ⟨(start_finish_state_machine c1tree 1 _ rfl false).1 (by decide) rfl,
    (start_finish_state_machine c1tree 0 _ rfl false).2.1 rfl,
    (start_finish_state_machine c1tree 2 _ rfl false).2.2.1 rfl,
    (start_finish_state_machine c1tree 3 _ rfl false).2.2.2.1 rfl,
    (start_finish_state_machine c1tree 4 _ rfl false).2.2.2.2 (Or.inr rfl)⟩

/-- C5: `setOutcome` on a leaf whose outcome is already assigned
throws the AlreadySet error before touching anything, so the whole
tree state — outcome, duration and every diagnostic field included —
is returned unmodified. -/
theorem setOutcome_twice_fails (t : Tree) (idx : Nat) (n : NodeData) (f : LeafFields)
    (h : t.node? idx = some n) (hk : n.kind = .test f) (ho : f.outcome.isSome)
    (o : TestOutcome) (d : Option Int) (m dt e a ef af : Option String) :
    TestNode.setOutcome idx o d m dt e a ef af t =
      (t, some (.thrown "Test outcome has already been set!")) := by
  simp [TestNode.setOutcome, h, hk, ho]

/-- A leaf with an outcome already set, for the C5 witness. -/
def c5tree : Tree :=
  { idPrefix := none, nextId := 2,
    nodes := [rootNode,
      { ident := .num 1, parent := some 0, name := "t", nodeType := none,
        locationPath := none, state := .started,
        kind := .test { outcome := some .success, durationMillis := some 7 } }],
    output := [] }

/-- C5 witness: the theorem applied to `c5tree`'s leaf. -/
theorem setOutcome_twice_fails_witness :
    TestNode.setOutcome 1 .failed (some 9) (some "boom") none none none none none c5tree =
      (c5tree, some (.thrown "Test outcome has already been set!")) :=
  setOutcome_twice_fails c5tree 1 _ _ rfl rfl (by decide)
    .failed (some 9) (some "boom") none none none none none

/-- A leaf (Finished, outcome set) for the C8 theorems. -/
def c8tree : Tree :=
  { idPrefix := none, nextId := 2,
    nodes := [rootNode,
      { ident := .num 1, parent := some 0, name := "t", nodeType := none,
        locationPath := none, state := .finished,
        kind := .test { outcome := some .success } }],
    output := [] }

/-- C8 counterexample: `addStdErr` with the empty string — text that
is not non-empty — still emits one `testStdErr` line (`out=''`),
because the source only checks `isString(err)`, not emptiness. -/
theorem addStdErr_empty_emits :
    TestNode.addStdErr 1 (some "") c8tree =
      ({ c8tree with output :=
          [⟨"##teamcity[testStdErr nodeId='1' out='']", some (.num 1)⟩] }, none) := by
  rfl

/-- C8 (amended): `addStdErr` emits exactly one immediate `testStdErr`
line carrying the node id and the escaped text whenever the argument
is a string — empty or not — and emits nothing when it is absent; it
throws nothing, changes no node field, and is accepted in every
lifecycle state (no state hypothesis is needed). -/
theorem addStdErr_frame (t : Tree) (idx : Nat) (n : NodeData) (f : LeafFields)
    (h : t.node? idx = some n) (hk : n.kind = .test f) (err : Option String) :
    (∀ s, err = some s →
      TestNode.addStdErr idx err t =
        (t.writeln ⟨"##teamcity[testStdErr nodeId='" ++ n.ident.render
          ++ "' out='" ++ escapeAttributeValue s ++ "']", some n.ident⟩, none)) ∧
    (err = none → TestNode.addStdErr idx err t = (t, none)) ∧
    (TestNode.addStdErr idx err t).1.nodes = t.nodes ∧
    (TestNode.addStdErr idx err t).2 = none := by
  cases err <;> simp [TestNode.addStdErr, h, hk, Tree.writeln]

/-- C8 witness: the amended theorem applied to `c8tree`'s Finished
leaf, once with text and once with no string. -/
theorem addStdErr_frame_witness :
    TestNode.addStdErr 1 (some "oops") c8tree =
      (c8tree.writeln ⟨"##teamcity[testStdErr nodeId='" ++ (NodeIdent.num 1).render
        ++ "' out='" ++ escapeAttributeValue "oops" ++ "']", some (.num 1)⟩, none) ∧
    TestNode.addStdErr 1 none c8tree = (c8tree, none) ∧
    (TestNode.addStdErr 1 (some "oops") c8tree).1.nodes = c8tree.nodes :=
  ⟨(addStdErr_frame c8tree 1 _ _ rfl rfl (some "oops")).1 "oops" rfl,
    (addStdErr_frame c8tree 1 _ _ rfl rfl none).2.1 rfl,
    (addStdErr_frame c8tree 1 _ _ rfl rfl (some "oops")).2.2.1⟩

/-- C10: when the finished-child counter of a non-root suite that is
still Created reaches its child count through a child finishing with
propagation, the automatic completion throws the IllegalState error
instead of finishing the suite: the child's mutations stand (its
finish line, its Finished state, the incremented counter) but the
suite's state is still Created. -/
theorem autocomplete_created_suite_fails (t : Tree) (c p : Nat) (n pn : NodeData)
    (children : List Nat) (cnt : Nat) (msg : String)
    (hc : t.node? c = some n) (hc0 : c ≠ 0) (hcp : n.parent = some p)
    (hpc : p ≠ c) (hp0 : p ≠ 0)
    (hn : n.state = .registered ∨ n.state = .started)
    (hmsg : n.getFinishMessage = .ok msg)
    (hpn : t.node? p = some pn) (hpk : pn.kind = .suite children cnt)
    (hlast : cnt + 1 = children.length) (hps : pn.state = .created) :
    Node.finish c true t =
      (((t.writeln ⟨msg, some n.ident⟩).setNode c { n with state := .finished }).setNode p
          { pn with kind := .suite children (cnt + 1) },
        some (.thrown "Unexpected node state: created")) ∧
    ((Node.finish c true t).1.node? p).map NodeData.state = some NodeState.created := by
  obtain ⟨c', rfl⟩ : ∃ c', c = c' + 1 :=
    ⟨c - 1, (Nat.succ_pred_eq_of_pos (Nat.pos_of_ne_zero hc0)).symm⟩
  have hne : (c' + 1 : Nat) ≠ p := fun hh => hpc hh.symm
  have h2 : ∀ m : NodeData,
      ((t.writeln ⟨msg, some n.ident⟩).setNode (c' + 1) m).node? p = some pn := by
    intro m
    rw [Tree.node?_setNode_ne _ _ _ _ hne, Tree.node?_writeln, hpn]
  have h3 : ∀ m q : NodeData,
      ((((t.writeln ⟨msg, some n.ident⟩).setNode (c' + 1) m)).setNode p q).node? p =
        some q := fun m q => Tree.node?_setNode_self _ _ _ _ (h2 m)
  have main : Node.finish (c' + 1) true t =
      (((t.writeln ⟨msg, some n.ident⟩).setNode (c' + 1)
          { n with state := .finished }).setNode p
          { pn with kind := .suite children (cnt + 1) },
        some (.thrown "Unexpected node state: created")) := by
    rcases hn with hn | hn <;>
      simp [Node.finish, finishGo, hc, hcp, hpc, hp0, hn, hmsg, h2, h3,
        hpk, hlast, hps, hne] <;> rfl
  refine ⟨main, ?_⟩
  rw [main]
  rw [h3]
  simp [hps]

/-- A Created suite (node 1) with a single Started child suite
(node 2), for the C10 witness. -/
def c10tree : Tree :=
  { idPrefix := none, nextId := 3,
    nodes := [rootNode,
      { ident := .num 1, parent := some 0, name := "s", nodeType := none,
        locationPath := none, state := .created, kind := .suite [2] 0 },
      { ident := .num 2, parent := some 1, name := "inner", nodeType := none,
        locationPath := none, state := .started, kind := .suite [] 0 }],
    output := [] }

/-- C10 witness: finishing the last child of `c10tree`'s Created suite
throws and leaves the suite un-finished. -/
theorem autocomplete_created_suite_fails_witness :
    Node.finish 2 true c10tree =
      (((c10tree.writeln ⟨"##teamcity[" ++ "testSuiteFinished" ++ " nodeId='"
            ++ (NodeIdent.num 2).render ++ "'" ++ "]", some (.num 2)⟩).setNode 2
          { ident := .num 2, parent := some 1, name := "inner", nodeType := none,
            locationPath := none, state := .finished, kind := .suite [] 0 }).setNode 1
          { ident := .num 1, parent := some 0, name := "s", nodeType := none,
            locationPath := none, state := .created, kind := .suite [2] 1 },
        some (.thrown "Unexpected node state: created")) ∧
    ((Node.finish 2 true c10tree).1.node? 1).map NodeData.state = some NodeState.created :=
  autocomplete_created_suite_fails c10tree 2 1 _ _ [2] 0 _
    rfl (by decide) rfl (by decide) (by decide) (Or.inr rfl) rfl rfl rfl (by decide) rfl

/-- C3 counterexample: in `c10tree` the suite (node 1) has exactly one
child, and that child finishes with propagation enabled — yet the
suite does not transition to Finished (it is still Created, the
auto-completion having thrown instead). -/
theorem suite_autofinish_counterexample :
    ((Node.finish 2 true c10tree).1.node? 2).map NodeData.state = some NodeState.finished ∧
    ((Node.finish 2 true c10tree).1.node? 1).map NodeData.state = some NodeState.created :=
  ⟨rfl, rfl⟩

/-- Grandparent suite for the C3 witness: Started, two children
(positions 2 and 5), none counted finished yet. -/
def c3g : NodeData :=
  { ident := .num 1, parent := some 0, name := "g", nodeType := none,
    locationPath := none, state := .started, kind := .suite [2, 5] 0 }

/-- Middle suite for the C3 witness: Started, children at positions 3
and 4, one already counted finished. -/
def c3p : NodeData :=
  { ident := .num 2, parent := some 1, name := "p", nodeType := none,
    locationPath := none, state := .started, kind := .suite [3, 4] 1 }

/-- Finished leaf under `c3p`. -/
def c3a : NodeData :=
  { ident := .num 3, parent := some 2, name := "a", nodeType := none,
    locationPath := none, state := .finished, kind := .test { outcome := some .success } }

/-- Started leaf under `c3p` — the last one to finish. -/
def c3b : NodeData :=
  { ident := .num 4, parent := some 2, name := "b", nodeType := none,
    locationPath := none, state := .started, kind := .test { outcome := some .success } }

/-- Registered empty suite under `c3g` — finishing it is not the last
child of `c3g`. -/
def c3q : NodeData :=
  { ident := .num 5, parent := some 1, name := "q", nodeType := none,
    locationPath := none, state := .registered, kind := .suite [] 0 }

/-- The C3 witness tree. -/
def c3tree : Tree :=
  { idPrefix := none, nextId := 6,
    nodes := [rootNode, c3g, c3p, c3a, c3b, c3q], output := [] }

/-- The C6 scenario: a Started suite (node 1) with three leaf
children of which exactly one (node 2) is already Finished; the other
two are Started with outcomes set, so their own `finish` would
succeed. -/
def c6tree : Tree :=
  { idPrefix := none, nextId := 5,
    nodes := [rootNode,
      { ident := .num 1, parent := some 0, name := "s", nodeType := none,
        locationPath := none, state := .started, kind := .suite [2, 3, 4] 1 },
      { ident := .num 2, parent := some 1, name := "a", nodeType := none,
        locationPath := none, state := .finished, kind := .test { outcome := some .success } },
      { ident := .num 3, parent := some 1, name := "b", nodeType := none,
        locationPath := none, state := .started, kind := .test { outcome := some .success } },
      { ident := .num 4, parent := some 1, name := "c", nodeType := none,
        locationPath := none, state := .started, kind := .test { outcome := some .success } }],
    output := [] }

/-- C6: `finishIfStarted` on the suite does not emit the four finish
messages the claim describes — it throws a TypeError at the first
non-Finished leaf child (`Node.prototype.finishIfStarted` reads
`this.children.length`, and a `TestNode` has no `children` property),
leaving the tree unchanged: zero messages, no node finished. -/
theorem finishIfStarted_leaf_children_bug :
    Node.finishIfStarted 1 c6tree =
      (c6tree, some (.typeError "Cannot read property 'length' of undefined")) ∧
    (Node.finishIfStarted 1 c6tree).1.output = c6tree.output :=
  ⟨rfl, rfl⟩

/-! ### Machinery for the global invariants (C4, C9): the identifier
and variant of every node, read off the node list, are preserved by
every lifecycle operation; only the two child-creation operations
extend them. -/

/-- Which variant a node is (`true` = suite). -/
def kindTag : NodeKind → Bool
  | .suite _ _ => true
  | .test _ => false

/-- The id and variant of each node, in creation order. -/
def Tree.shapeMap (t : Tree) : List (NodeIdent × Bool) :=
  t.nodes.map fun n => (n.ident, kindTag n.kind)

/-- The id the allocator hands out for counter value `k` under a
configured prefix. -/
def mkIdent : Option String → Nat → NodeIdent
  | some pre, k => .withPrefix pre k
  | none, k => .num k

theorem idNum_mkIdent (pre : Option String) (k : Nat) : (mkIdent pre k).idNum = k := by
  cases pre <;> rfl

theorem allocIdent_eq (t : Tree) : t.allocIdent = mkIdent t.idPrefix t.nextId := by
  cases h : t.idPrefix <;> simp [Tree.allocIdent, mkIdent, h]

theorem set_getElem?_self {α : Type} (l : List α) (i : Nat) (a : α)
    (h : l[i]? = some a) : l.set i a = l := by
  apply List.ext_getElem?
  intro j
  by_cases hij : i = j
  · subst hij
    rw [List.getElem?_set_eq_of_lt _ (List.getElem?_eq_some.mp h).1, h]
  · rw [List.getElem?_set_ne hij]

theorem shapeMap_writeln (t : Tree) (l : OutLine) :
    (t.writeln l).shapeMap = t.shapeMap := rfl

theorem shapeMap_setNode_keep (t : Tree) (i : Nat) (n m : NodeData)
    (h : t.node? i = some n) (hm : m.ident = n.ident)
    (hk : kindTag m.kind = kindTag n.kind) :
    (t.setNode i m).shapeMap = t.shapeMap := by
  have hmap : (t.shapeMap)[i]? = some (n.ident, kindTag n.kind) := by
    rw [Tree.shapeMap, List.getElem?_map]
    rw [Tree.node?] at h
    rw [h]
    rfl
  calc (t.setNode i m).shapeMap
      = t.shapeMap.set i (m.ident, kindTag m.kind) := by
        simp [Tree.shapeMap, Tree.setNode, List.map_set]
    _ = t.shapeMap := by rw [hm, hk]; exact set_getElem?_self _ _ _ hmap

theorem ident_lookup_of_shapeMap_eq {t t' : Tree} (h : t'.shapeMap = t.shapeMap)
    (j : Nat) (m : NodeData) (hm : t'.node? j = some m) :
    ∃ m', t.node? j = some m' ∧ m'.ident = m.ident ∧ kindTag m'.kind = kindTag m.kind := by
  have hj : (t.shapeMap)[j]? = some (m.ident, kindTag m.kind) := by
    rw [← h, Tree.shapeMap, List.getElem?_map]
    rw [Tree.node?] at hm
    rw [hm]
    rfl
  rw [Tree.shapeMap, List.getElem?_map] at hj
  cases ht : t.nodes[j]? with
  | none => rw [ht] at hj; cases hj
  | some m' =>
    rw [ht] at hj
    have hj' : (m'.ident, kindTag m'.kind) = (m.ident, kindTag m.kind) :=
      Option.some.inj (by simpa using hj)
    exact ⟨m', ht, (Prod.mk.injEq _ _ _ _).mp hj' |>.1,
      (Prod.mk.injEq _ _ _ _).mp hj' |>.2⟩

/-- What every lifecycle operation (no child creation) guarantees:
ids and variants of all nodes, the id counter and the prefix are
untouched, and every output line is either old or carries the id of a
non-root node of the starting state as its subject. -/
def StepFacts (t res : Tree) : Prop :=
  res.shapeMap = t.shapeMap ∧ res.nextId = t.nextId ∧ res.idPrefix = t.idPrefix ∧
  ∀ line ∈ res.output, line ∈ t.output ∨
    ∃ j m, t.node? j = some m ∧ j ≠ 0 ∧ line.subject = some m.ident

theorem StepFacts_refl (t : Tree) : StepFacts t t :=
  ⟨rfl, rfl, rfl, fun _ hl => Or.inl hl⟩

theorem StepFacts.trans {t t' t'' : Tree} (h1 : StepFacts t t') (h2 : StepFacts t' t'') :
    StepFacts t t'' := by
  obtain ⟨s1, n1, p1, o1⟩ := h1
  obtain ⟨s2, n2, p2, o2⟩ := h2
  refine ⟨s2.trans s1, n2.trans n1, p2.trans p1, fun l hl => ?_⟩
  rcases o2 l hl with hl' | ⟨j, m, hm, hj, hs⟩
  · exact o1 l hl'
  · obtain ⟨m', hm', hid, _⟩ := ident_lookup_of_shapeMap_eq s1 j m hm
    exact Or.inr ⟨j, m', hm', hj, by rw [hs, hid]⟩

theorem StepFacts_writeln (t : Tree) (l : OutLine) (j : Nat) (m : NodeData)
    (hm : t.node? j = some m) (h0 : j ≠ 0) (hs : l.subject = some m.ident) :
    StepFacts t (t.writeln l) := by
  refine ⟨rfl, rfl, rfl, fun x hx => ?_⟩
  rcases List.mem_append.mp hx with hx | hx
  · exact Or.inl hx
  · have : x = l := by simpa using hx
    exact Or.inr ⟨j, m, hm, h0, by rw [this, hs]⟩

theorem StepFacts_setNode (t : Tree) (i : Nat) (n m : NodeData)
    (h : t.node? i = some n) (hm : m.ident = n.ident)
    (hk : kindTag m.kind = kindTag n.kind) : StepFacts t (t.setNode i m) :=
  ⟨shapeMap_setNode_keep t i n m h hm hk, rfl, rfl, fun _ hl => Or.inl hl⟩

theorem finishGo_facts : ∀ (fuel idx : Nat) (b : Bool) (t : Tree),
    StepFacts t (finishGo fuel idx b t).1 := by
  intro fuel
  induction fuel with
  | zero => intro idx b t; exact StepFacts_refl t
  | succ fuel ih =>
    intro idx b t
    cases hnode : t.node? idx with
    | none =>
      simp only [finishGo, hnode]
      exact StepFacts_refl t
    | some n =>
      by_cases h0 : idx = 0
      · simp only [finishGo, hnode, if_pos h0]
        exact StepFacts_refl t
      · by_cases hst : n.state ≠ .registered ∧ n.state ≠ .started
        · simp only [finishGo, hnode, if_neg h0, if_pos hst]
          exact StepFacts_refl t
        · cases hmsg : n.getFinishMessage with
          | error e =>
            simp only [finishGo, hnode, if_neg h0, if_neg hst, hmsg]
            exact StepFacts_refl t
          | ok text =>
            simp only [finishGo, hnode, if_neg h0, if_neg hst, hmsg]
            have hw : StepFacts t (t.writeln ⟨text, some n.ident⟩) :=
              StepFacts_writeln t _ idx n hnode h0 rfl
            have h1 : (t.writeln ⟨text, some n.ident⟩).node? idx = some n := hnode
            set t2 := (t.writeln ⟨text, some n.ident⟩).setNode idx
              { n with state := .finished } with hT2
            have h2 : StepFacts t t2 :=
              hw.trans (StepFacts_setNode _ idx n _ h1 rfl rfl)
            cases b with
            | false => exact h2
            | true =>
              simp only [if_true]
              cases hp : n.parent with
              | none => exact h2
              | some p =>
                by_cases hp0 : p ≠ 0
                · simp only [if_pos hp0]
                  cases hp2 : t2.node? p with
                  | none => exact h2
                  | some pn =>
                    cases hpk : pn.kind with
                    | test f => simp only [hpk]; exact h2
                    | suite children cnt =>
                      simp only [hpk]
                      have h3 : StepFacts t
                          (t2.setNode p { pn with kind := .suite children (cnt + 1) }) :=
                        h2.trans (StepFacts_setNode _ p pn _ hp2 rfl (by simp [hpk, kindTag]))
                      by_cases hcond : cnt + 1 = children.length ∧ pn.state ≠ .finished
                      · simp only [if_pos hcond]
                        exact h3.trans (ih p true _)
                      · simp only [if_neg hcond]
                        exact h3
                · simp only [if_neg hp0]
                  exact h2

theorem finishListGo_facts : ∀ (fuel : Nat) (l : List Nat) (t : Tree),
    StepFacts t (finishListGo fuel l t).1 := by
  intro fuel
  induction fuel with
  | zero => intro l t; exact StepFacts_refl t
  | succ fuel ih =>
    intro l t
    cases l with
    | nil => exact StepFacts_refl t
    | cons idx rest =>
      cases hnode : t.node? idx with
      | none =>
        simp only [finishListGo, hnode]
        exact StepFacts_refl t
      | some n =>
        by_cases hs : n.state ≠ .finished
        · simp only [finishListGo, hnode, if_pos hs]
          cases hk : n.kind with
          | test f => exact StepFacts_refl t
          | suite children cnt =>
            cases hrec : finishListGo fuel children t with
            | mk t1 e1 =>
              have f1 : StepFacts t t1 := by
                have := ih children t
                rwa [hrec] at this
              cases e1 with
              | some e =>
                simp only [hrec]
                exact f1
              | none =>
                cases hfin : finishGo (idx + 1) idx false t1 with
                | mk t2 e2 =>
                  have f2 : StepFacts t t2 := by
                    have := finishGo_facts (idx + 1) idx false t1
                    rw [hfin] at this
                    exact f1.trans this
                  cases e2 with
                  | some e =>
                    simp only [hrec, hfin]
                    exact f2
                  | none =>
                    simp only [hrec, hfin]
                    exact f2.trans (ih rest t2)
        · simp only [finishListGo, hnode, if_neg hs]
          exact ih rest t

/-- The ids, variants, counter and prefix — everything the identity
allocator cares about — of `res` against `t`. -/
def ShapeFacts (t res : Tree) : Prop :=
  res.shapeMap = t.shapeMap ∧ res.nextId = t.nextId ∧ res.idPrefix = t.idPrefix

theorem StepFacts.shape {t res : Tree} (h : StepFacts t res) : ShapeFacts t res :=
  ⟨h.1, h.2.1, h.2.2.1⟩

theorem shapeMap_lookup (t : Tree) (j : Nat) (m : NodeData) (h : t.node? j = some m) :
    (t.shapeMap)[j]? = some (m.ident, kindTag m.kind) := by
  rw [Tree.shapeMap, List.getElem?_map]
  rw [Tree.node?] at h
  rw [h]
  rfl

/-- `register` either throws leaving the state alone, or writes the
init line and marks the node Registered. -/
theorem register_cases (idx : Nat) (t : Tree) :
    (Node.register idx t).1 = t ∨
    ∃ n, t.node? idx = some n ∧ n.state = .created ∧
      (Node.register idx t).1 = (t.writeln ⟨getInitMessage t n false, some n.ident⟩).setNode
        idx { n with state := .registered } := by
  unfold Node.register
  cases hnode : t.node? idx with
  | none => exact Or.inl rfl
  | some n =>
    by_cases hs : n.state = .created
    · exact Or.inr ⟨n, rfl, hs, by simp [hs]⟩
    · simp [hs]

/-- `start` is a no-op (possibly throwing), or writes one start line
and marks the node Started. -/
theorem start_cases (idx : Nat) (t : Tree) :
    (Node.start idx t).1 = t ∨
    ∃ n text, t.node? idx = some n ∧ getStartMessage t n = .ok text ∧
      (Node.start idx t).1 = (t.writeln ⟨text, some n.ident⟩).setNode
        idx { n with state := .started } := by
  unfold Node.start
  cases hnode : t.node? idx with
  | none => exact Or.inl rfl
  | some n =>
    by_cases hf : n.state = .finished
    · simp [hf]
    · by_cases hst : n.state = .started
      · simp [hf, hst]
      · cases hmsg : getStartMessage t n with
        | error e => simp [hf, hst, hmsg]
        | ok text => exact Or.inr ⟨n, text, rfl, hmsg, by simp [hf, hst, hmsg]⟩

/-- `setOutcome` either throws leaving the state alone, or replaces
the leaf's fields in place. -/
theorem setOutcome_cases (idx : Nat) (o : TestOutcome) (d : Option Int)
    (m dt e a ef af : Option String) (t : Tree) :
    (TestNode.setOutcome idx o d m dt e a ef af t).1 = t ∨
    ∃ n f f', t.node? idx = some n ∧ n.kind = .test f ∧
      (TestNode.setOutcome idx o d m dt e a ef af t).1 =
        t.setNode idx { n with kind := .test f' } := by
  unfold TestNode.setOutcome
  cases hnode : t.node? idx with
  | none => exact Or.inl rfl
  | some n =>
    cases hk : n.kind with
    | suite ch cnt => left; simp [hk]
    | test f =>
      by_cases ho : f.outcome.isSome
      · left; simp [hk, ho]
      · refine Or.inr ⟨n, f,
          (let f1 : LeafFields :=
            { outcome := some o, durationMillis := d, failureMsg := m, failureDetails := dt,
              expectedStr := if isString e then e else none,
              actualStr := if isString a then a else none,
              expectedFilePath := if isString ef then ef else none,
              actualFilePath := if isString af then af else none, metainfo := f.metainfo }
          if o = TestOutcome.skipped ∧ strFalsy m then
            { f1 with failureMsg := some ("Pending test '" ++ n.name ++ "'") }
          else f1), rfl, hk, ?_⟩
        simp [hk, ho]

/-- `setMetainfo` either throws leaving the state alone, or replaces
the leaf's metainfo in place. -/
theorem setMetainfo_cases (idx : Nat) (mi : Option String) (t : Tree) :
    (TestNode.setMetainfo idx mi t).1 = t ∨
    ∃ n f f', t.node? idx = some n ∧ n.kind = .test f ∧
      (TestNode.setMetainfo idx mi t).1 = t.setNode idx { n with kind := .test f' } := by
  unfold TestNode.setMetainfo
  cases hnode : t.node? idx with
  | none => exact Or.inl rfl
  | some n =>
    cases hk : n.kind with
    | suite ch cnt => left; simp [hk]
    | test f =>
      refine Or.inr ⟨n, f, { f with metainfo := mi }, rfl, hk, ?_⟩
      simp [hk]

/-- `addStdErr` either leaves the state alone, or writes exactly one
`testStdErr` line for a leaf. -/
theorem addStdErr_cases (idx : Nat) (err : Option String) (t : Tree) :
    (TestNode.addStdErr idx err t).1 = t ∨
    ∃ n f s, t.node? idx = some n ∧ n.kind = .test f ∧ err = some s ∧
      (TestNode.addStdErr idx err t).1 =
        t.writeln ⟨"##teamcity[testStdErr nodeId='" ++ n.ident.render
          ++ "' out='" ++ escapeAttributeValue s ++ "']", some n.ident⟩ := by
  unfold TestNode.addStdErr
  cases hnode : t.node? idx with
  | none => exact Or.inl rfl
  | some n =>
    cases hk : n.kind with
    | suite ch cnt => left; simp [hk]
    | test f =>
      cases err with
      | none => left; simp [hk]
      | some s =>
        refine Or.inr ⟨n, f, s, rfl, hk, rfl, ?_⟩
        simp [hk]

/-- `addTestChild` either throws leaving the state alone, or appends
one fresh leaf: the shape gains exactly one entry carrying the
allocator's next id, the counter moves up by one, nothing else
changes. -/
theorem addTestChild_cases (p : Nat) (cn : String) (ty lp : Option String) (t : Tree) :
    (TestSuiteNode.addTestChild p cn ty lp t).1 = t ∨
    ((∃ pn, t.node? p = some pn) ∧
      (TestSuiteNode.addTestChild p cn ty lp t).1.shapeMap =
        t.shapeMap ++ [(mkIdent t.idPrefix t.nextId, false)] ∧
      (TestSuiteNode.addTestChild p cn ty lp t).1.nextId = t.nextId + 1 ∧
      (TestSuiteNode.addTestChild p cn ty lp t).1.idPrefix = t.idPrefix ∧
      (TestSuiteNode.addTestChild p cn ty lp t).1.output = t.output) := by
  unfold TestSuiteNode.addTestChild
  cases hnode : t.node? p with
  | none => exact Or.inl rfl
  | some pn =>
    cases hk : pn.kind with
    | test f => left; simp [hk]
    | suite children cnt =>
      by_cases hf : pn.state = .finished
      · left; simp [hk, hf]
      · refine Or.inr ⟨⟨pn, rfl⟩, ?_, by simp [hk, hf], by simp [hk, hf], by simp [hk, hf]⟩
        simp only [hk]
        rw [if_neg hf]
        show (Tree.shapeMap ⟨t.idPrefix, t.nextId + 1, _, t.output⟩) = _
        rw [Tree.shapeMap]
        rw [List.map_append]
        have hset : ((t.nodes.set p { pn with kind := .suite (children ++ [t.nodes.length]) cnt }).map
            fun n => (n.ident, kindTag n.kind)) = t.shapeMap := by
          rw [List.map_set]
          dsimp only
          rw [show kindTag (NodeKind.suite (children ++ [t.nodes.length]) cnt) =
            kindTag pn.kind from by simp [kindTag, hk]]
          exact set_getElem?_self _ _ _ (shapeMap_lookup t p pn hnode)
        rw [hset]
        rw [allocIdent_eq]
        rfl

/-- `addTestSuiteChild`: as `addTestChild` with a suite-tagged entry. -/
theorem addTestSuiteChild_cases (p : Nat) (cn : String) (ty lp : Option String) (t : Tree) :
    (TestSuiteNode.addTestSuiteChild p cn ty lp t).1 = t ∨
    ((∃ pn, t.node? p = some pn) ∧
      (TestSuiteNode.addTestSuiteChild p cn ty lp t).1.shapeMap =
        t.shapeMap ++ [(mkIdent t.idPrefix t.nextId, true)] ∧
      (TestSuiteNode.addTestSuiteChild p cn ty lp t).1.nextId = t.nextId + 1 ∧
      (TestSuiteNode.addTestSuiteChild p cn ty lp t).1.idPrefix = t.idPrefix ∧
      (TestSuiteNode.addTestSuiteChild p cn ty lp t).1.output = t.output) := by
  unfold TestSuiteNode.addTestSuiteChild
  cases hnode : t.node? p with
  | none => exact Or.inl rfl
  | some pn =>
    cases hk : pn.kind with
    | test f => left; simp [hk]
    | suite children cnt =>
      by_cases hf : pn.state = .finished
      · left; simp [hk, hf]
      · refine Or.inr ⟨⟨pn, rfl⟩, ?_, by simp [hk, hf], by simp [hk, hf], by simp [hk, hf]⟩
        simp only [hk]
        rw [if_neg hf]
        show (Tree.shapeMap ⟨t.idPrefix, t.nextId + 1, _, t.output⟩) = _
        rw [Tree.shapeMap]
        rw [List.map_append]
        have hset : ((t.nodes.set p { pn with kind := .suite (children ++ [t.nodes.length]) cnt }).map
            fun n => (n.ident, kindTag n.kind)) = t.shapeMap := by
          rw [List.map_set]
          dsimp only
          rw [show kindTag (NodeKind.suite (children ++ [t.nodes.length]) cnt) =
            kindTag pn.kind from by simp [kindTag, hk]]
          exact set_getElem?_self _ _ _ (shapeMap_lookup t p pn hnode)
        rw [hset]
        rw [allocIdent_eq]
        rfl

/-- The identity-allocator invariant: the allocated counter values of
the nodes, in creation order, are strictly increasing; all are below
the next counter value; and every non-root id has the configured
prefix form. -/
def IdsOk (t : Tree) : Prop :=
  List.Chain' (· < ·) (t.shapeMap.map fun pr => pr.1.idNum) ∧
  (∀ x ∈ t.shapeMap.map fun pr => pr.1.idNum, x < t.nextId) ∧
  (∀ i pr, (t.shapeMap)[i]? = some pr → i ≠ 0 → pr.1 = mkIdent t.idPrefix pr.1.idNum)

theorem IdsOk_new (pre : Option String) : IdsOk (Tree.new pre) := by
  refine ⟨?_, ?_, ?_⟩
  · simp [Tree.new, Tree.shapeMap, rootNode]
  · simp [Tree.new, Tree.shapeMap, rootNode, NodeIdent.idNum]
  · intro i pr hpr hi
    rcases Nat.lt_or_ge i 1 with h1 | h1
    · omega
    · rw [show (Tree.new pre).shapeMap = [(NodeIdent.num 0, true)] from rfl,
        List.getElem?_eq_none (by simpa using h1)] at hpr
      cases hpr

theorem IdsOk_of_shape {t t' : Tree} (h : ShapeFacts t t') (hI : IdsOk t) : IdsOk t' := by
  obtain ⟨hs, hn, hp⟩ := h
  rw [IdsOk, hs, hn, hp]
  exact hI

theorem IdsOk_push {t t' : Tree} (tag : Bool) (hI : IdsOk t)
    (hs : t'.shapeMap = t.shapeMap ++ [(mkIdent t.idPrefix t.nextId, tag)])
    (hn : t'.nextId = t.nextId + 1) (hp : t'.idPrefix = t.idPrefix) : IdsOk t' := by
  obtain ⟨hchain, hbound, hform⟩ := hI
  refine ⟨?_, ?_, ?_⟩
  · rw [hs, List.map_append]
    rw [List.chain'_append]
    refine ⟨hchain, by simp, ?_⟩
    intro x hx y hy
    simp only [List.map_cons, List.map_nil, List.head?_cons, Option.mem_def,
      Option.some.injEq] at hy
    subst hy
    rw [idNum_mkIdent]
    exact hbound x (List.mem_of_mem_getLast? hx)
  · intro x hx
    rw [hs, List.map_append, List.mem_append] at hx
    rw [hn]
    rcases hx with hx | hx
    · exact Nat.lt_succ_of_lt (hbound x hx)
    · simp only [List.map_cons, List.map_nil, List.mem_singleton] at hx
      subst hx
      rw [idNum_mkIdent]
      omega
  · intro i pr hpr hi
    rw [hs, List.getElem?_append] at hpr
    rw [hp]
    split at hpr
    · exact hform i pr hpr hi
    · have : pr = (mkIdent t.idPrefix t.nextId, tag) := by
        cases hj : i - t.shapeMap.length with
        | zero => rw [hj] at hpr; exact (Option.some.inj hpr).symm
        | succ k => rw [hj] at hpr; simp at hpr
      subst this
      rw [idNum_mkIdent]

theorem applyOp_IdsOk (op : Op) (t : Tree) (h : IdsOk t) : IdsOk (applyOp op t).1 := by
  cases op with
  | register idx =>
    rcases register_cases idx t with hc | ⟨n, _, _, hc⟩
    · rw [applyOp, hc]; exact h
    · rw [applyOp, hc]
      exact IdsOk_of_shape ⟨shapeMap_setNode_keep _ idx n _ (by exact ‹t.node? idx = some n›) rfl rfl, rfl, rfl⟩ h
  | start idx =>
    rcases start_cases idx t with hc | ⟨n, text, hn, _, hc⟩
    · rw [applyOp, hc]; exact h
    · rw [applyOp, hc]
      exact IdsOk_of_shape ⟨shapeMap_setNode_keep _ idx n _ hn rfl rfl, rfl, rfl⟩ h
  | finish idx b =>
    exact IdsOk_of_shape (finishGo_facts (idx + 1) idx b t).shape h
  | finishIfStarted idx =>
    exact IdsOk_of_shape (finishListGo_facts _ [idx] t).shape h
  | addTestChild p cn ty lp =>
    rcases addTestChild_cases p cn ty lp t with hc | ⟨_, hs, hn, hp, _⟩
    · rw [applyOp, hc]; exact h
    · exact IdsOk_push false h hs hn hp
  | addTestSuiteChild p cn ty lp =>
    rcases addTestSuiteChild_cases p cn ty lp t with hc | ⟨_, hs, hn, hp, _⟩
    · rw [applyOp, hc]; exact h
    · exact IdsOk_push true h hs hn hp
  | setOutcome idx o d m dt e a ef af =>
    rcases setOutcome_cases idx o d m dt e a ef af t with hc | ⟨n, f, f', hn, hk, hc⟩
    · rw [applyOp, hc]; exact h
    · rw [applyOp, hc]
      exact IdsOk_of_shape ⟨shapeMap_setNode_keep _ idx n _ hn rfl (by simp [kindTag, hk]), rfl, rfl⟩ h
  | setMetainfo idx mi =>
    rcases setMetainfo_cases idx mi t with hc | ⟨n, f, f', hn, hk, hc⟩
    · rw [applyOp, hc]; exact h
    · rw [applyOp, hc]
      exact IdsOk_of_shape ⟨shapeMap_setNode_keep _ idx n _ hn rfl (by simp [kindTag, hk]), rfl, rfl⟩ h
  | addStdErr idx err =>
    rcases addStdErr_cases idx err t with hc | ⟨n, f, s, hn, hk, _, hc⟩
    · rw [applyOp, hc]; exact h
    · rw [applyOp, hc]
      exact IdsOk_of_shape ⟨rfl, rfl, rfl⟩ h
  | startNotify => exact IdsOk_of_shape ⟨rfl, rfl, rfl⟩ h
  | updateRootNode nm c l => exact IdsOk_of_shape ⟨rfl, rfl, rfl⟩ h
  | addTotalTestCount k =>
    rw [applyOp]
    by_cases hk : k > 0 <;> simp only [Tree.addTotalTestCount, hk] <;>
      [exact IdsOk_of_shape ⟨rfl, rfl, rfl⟩ h; exact IdsOk_of_shape ⟨rfl, rfl, rfl⟩ h]
  | testingStarted => exact IdsOk_of_shape ⟨rfl, rfl, rfl⟩ h
  | testingFinished => exact IdsOk_of_shape ⟨rfl, rfl, rfl⟩ h

theorem run_IdsOk (ops : List Op) (t : Tree) (h : IdsOk t) : IdsOk (run ops t) := by
  induction ops generalizing t with
  | nil => exact h
  | cons op rest ih => exact ih (applyOp op t).1 (applyOp_IdsOk op t h)

theorem applyOp_idPrefix (op : Op) (t : Tree) : (applyOp op t).1.idPrefix = t.idPrefix := by
  have base : ∀ t' : Tree, ShapeFacts t t' → t'.idPrefix = t.idPrefix := fun _ hf => hf.2.2
  cases op with
  | register idx =>
    rcases register_cases idx t with hc | ⟨n, hn, _, hc⟩ <;> rw [applyOp, hc] <;> rfl
  | start idx =>
    rcases start_cases idx t with hc | ⟨n, text, hn, _, hc⟩ <;> rw [applyOp, hc] <;> rfl
  | finish idx b => exact (finishGo_facts (idx + 1) idx b t).shape.2.2
  | finishIfStarted idx => exact (finishListGo_facts _ [idx] t).shape.2.2
  | addTestChild p cn ty lp =>
    rcases addTestChild_cases p cn ty lp t with hc | ⟨_, _, _, hp, _⟩
    · rw [applyOp, hc]
    · exact hp
  | addTestSuiteChild p cn ty lp =>
    rcases addTestSuiteChild_cases p cn ty lp t with hc | ⟨_, _, _, hp, _⟩
    · rw [applyOp, hc]
    · exact hp
  | setOutcome idx o d m dt e a ef af =>
    rcases setOutcome_cases idx o d m dt e a ef af t with hc | ⟨n, f, f', hn, hk, hc⟩ <;>
      rw [applyOp, hc] <;> rfl
  | setMetainfo idx mi =>
    rcases setMetainfo_cases idx mi t with hc | ⟨n, f, f', hn, hk, hc⟩ <;>
      rw [applyOp, hc] <;> rfl
  | addStdErr idx err =>
    rcases addStdErr_cases idx err t with hc | ⟨n, f, s, hn, hk, _, hc⟩ <;>
      rw [applyOp, hc] <;> rfl
  | startNotify => rfl
  | updateRootNode nm c l => rfl
  | addTotalTestCount k =>
    rw [applyOp]
    by_cases hk : k > 0 <;> simp [Tree.addTotalTestCount, hk, Tree.writeln]
  | testingStarted => rfl
  | testingFinished => rfl

theorem run_idPrefix (ops : List Op) (t : Tree) : (run ops t).idPrefix = t.idPrefix := by
  induction ops generalizing t with
  | nil => rfl
  | cons op rest ih => exact (ih (applyOp op t).1).trans (applyOp_idPrefix op t)

/-- C4: within one tree instance, across any interleaving of public
operations (child creation on any suites included), the underlying
integer ids of the nodes, in creation order, are strictly pairwise
increasing — so no id is ever reused, even after a node is finished —
and when an id-namespace prefix is configured every allocated
(non-root) id renders as `<prefix>-<n>`. -/
theorem ids_strictly_increasing_never_reused (pre : Option String) (ops : List Op) :
    List.Pairwise (· < ·) ((run ops (Tree.new pre)).nodes.map fun n => n.ident.idNum) ∧
    (∀ i n, (run ops (Tree.new pre)).node? i = some n → i ≠ 0 →
      n.ident = mkIdent pre n.ident.idNum ∧
      ∀ p, pre = some p → n.ident.render = p ++ "-" ++ toString n.ident.idNum) := by
  have hI := run_IdsOk ops (Tree.new pre) (IdsOk_new pre)
  have hpre : (run ops (Tree.new pre)).idPrefix = pre := run_idPrefix ops (Tree.new pre)
  obtain ⟨hchain, _, hform⟩ := hI
  constructor
  · have hmm : (run ops (Tree.new pre)).nodes.map (fun n => n.ident.idNum) =
        (run ops (Tree.new pre)).shapeMap.map (fun pr => pr.1.idNum) := by
      rw [Tree.shapeMap, List.map_map]
      rfl
    rw [hmm]
    exact List.chain'_iff_pairwise.mp hchain
  · intro i n hn hi
    have hpr := shapeMap_lookup _ i n hn
    have hid := hform i _ hpr hi
    simp only at hid
    rw [hpre] at hid
    refine ⟨hid, ?_⟩
    intro p hp
    subst hp
    rw [hid]
    rfl

/-- Call sequence for the C4 witness: one suite child, one leaf child
under it, interleaved with lifecycle calls. -/
def c4ops : List Op :=
  [Op.addTestSuiteChild 0 "A" none none, Op.start 1,
   Op.addTestChild 1 "B" none none]

/-- The leaf `c4ops` creates at position 2. -/
def c4node : NodeData :=
  { ident := .withPrefix "1" 2, parent := some 1, name := "B", nodeType := none,
    locationPath := none, state := .created, kind := .test {} }

/-- C4 witness: the theorem applied to the concrete interleaving
`c4ops` under the prefix "1". -/
theorem ids_strictly_increasing_never_reused_witness :
    List.Pairwise (· < ·)
      ((run c4ops (Tree.new (some "1"))).nodes.map fun n => n.ident.idNum) ∧
    c4node.ident = mkIdent (some "1") c4node.ident.idNum ∧
    c4node.ident.render = "1" ++ "-" ++ toString c4node.ident.idNum :=
  ⟨(ids_strictly_increasing_never_reused (some "1") c4ops).1,
    ((ids_strictly_increasing_never_reused (some "1") c4ops).2 2 c4node rfl
      (by decide)).1,
    ((ids_strictly_increasing_never_reused (some "1") c4ops).2 2 c4node rfl
      (by decide)).2 "1" rfl⟩

/-- The root-protection invariant: the counter is past 0, position 0
(when present) is the suite with id 0, every other node has a
different id, and no emitted line has the root id as its subject. -/
def C9Inv (t : Tree) : Prop :=
  1 ≤ t.nextId ∧
  (∀ pr, (t.shapeMap)[0]? = some pr → pr.1 = NodeIdent.num 0 ∧ pr.2 = true) ∧
  (∀ i pr, (t.shapeMap)[i]? = some pr → i ≠ 0 → pr.1 ≠ NodeIdent.num 0) ∧
  (∀ line ∈ t.output, line.subject ≠ some (NodeIdent.num 0))

theorem C9Inv_new (pre : Option String) : C9Inv (Tree.new pre) := by
  refine ⟨by simp [Tree.new], ?_, ?_, by simp [Tree.new]⟩
  · intro pr hpr
    rw [show (Tree.new pre).shapeMap = [(NodeIdent.num 0, true)] from rfl] at hpr
    cases Option.some.inj hpr
    exact ⟨rfl, rfl⟩
  · intro i pr hpr hi
    rw [show (Tree.new pre).shapeMap = [(NodeIdent.num 0, true)] from rfl] at hpr
    cases hii : i with
    | zero => exact absurd hii hi
    | succ k => rw [hii] at hpr; simp at hpr

theorem mkIdent_ne_root (pre : Option String) (k : Nat) (hk : 1 ≤ k) :
    mkIdent pre k ≠ NodeIdent.num 0 := by
  cases pre <;> simp [mkIdent] <;> omega

theorem C9Inv_of_step {t t' : Tree} (h : StepFacts t t') (hI : C9Inv t) : C9Inv t' := by
  obtain ⟨hs, hn, _, ho⟩ := h
  obtain ⟨i1, i2, i3, i4⟩ := hI
  refine ⟨by rw [hn]; exact i1, by rw [hs]; exact i2, by rw [hs]; exact i3, ?_⟩
  intro line hl
  rcases ho line hl with hl' | ⟨j, m, hm, hj, hsub⟩
  · exact i4 line hl'
  · have := i3 j _ (shapeMap_lookup t j m hm) hj
    rw [hsub]
    intro hc
    exact this (Option.some.inj hc)

theorem C9Inv_writeln_none (t : Tree) (l : OutLine) (hs : l.subject = none)
    (hI : C9Inv t) : C9Inv (t.writeln l) := by
  obtain ⟨i1, i2, i3, i4⟩ := hI
  refine ⟨i1, i2, i3, ?_⟩
  intro line hl
  rcases List.mem_append.mp hl with hl' | hl'
  · exact i4 line hl'
  · have : line = l := by simpa using hl'
    rw [this, hs]
    simp

theorem C9Inv_push {t t' : Tree} (tag : Bool) (hI : C9Inv t)
    (hlen : 0 < t.shapeMap.length)
    (hs : t'.shapeMap = t.shapeMap ++ [(mkIdent t.idPrefix t.nextId, tag)])
    (hn : t'.nextId = t.nextId + 1) (ho : t'.output = t.output) : C9Inv t' := by
  obtain ⟨i1, i2, i3, i4⟩ := hI
  refine ⟨by omega, ?_, ?_, by rw [ho]; exact i4⟩
  · intro pr hpr
    rw [hs, List.getElem?_append, if_pos hlen] at hpr
    exact i2 pr hpr
  · intro i pr hpr hi
    rw [hs, List.getElem?_append] at hpr
    split at hpr
    · exact i3 i pr hpr hi
    · have : pr = (mkIdent t.idPrefix t.nextId, tag) := by
        cases hj : i - t.shapeMap.length with
        | zero => rw [hj] at hpr; exact (Option.some.inj hpr).symm
        | succ k => rw [hj] at hpr; simp at hpr
      subst this
      exact mkIdent_ne_root _ _ i1

theorem applyOp_C9Inv (op : Op) (t : Tree)
    (hop : op ≠ Op.register 0 ∧ op ≠ Op.start 0) (h : C9Inv t) :
    C9Inv (applyOp op t).1 := by
  cases op with
  | register idx =>
    have hidx : idx ≠ 0 := fun hc => hop.1 (by rw [hc])
    rcases register_cases idx t with hc | ⟨n, hn, _, hc⟩
    · rw [applyOp, hc]; exact h
    · rw [applyOp, hc]
      refine C9Inv_of_step ?_ h
      exact (StepFacts_writeln t _ idx n hn hidx rfl).trans
        (StepFacts_setNode _ idx n _ hn rfl rfl)
  | start idx =>
    have hidx : idx ≠ 0 := fun hc => hop.2 (by rw [hc])
    rcases start_cases idx t with hc | ⟨n, text, hn, _, hc⟩
    · rw [applyOp, hc]; exact h
    · rw [applyOp, hc]
      refine C9Inv_of_step ?_ h
      exact (StepFacts_writeln t _ idx n hn hidx rfl).trans
        (StepFacts_setNode _ idx n _ hn rfl rfl)
  | finish idx b => exact C9Inv_of_step (finishGo_facts (idx + 1) idx b t) h
  | finishIfStarted idx => exact C9Inv_of_step (finishListGo_facts _ [idx] t) h
  | addTestChild p cn ty lp =>
    rcases addTestChild_cases p cn ty lp t with hc | ⟨⟨pn, hpn⟩, hsh, hn, _, ho⟩
    · rw [applyOp, hc]; exact h
    · refine C9Inv_push false h ?_ hsh hn ho
      have := t.lt_length_of_node? p pn hpn
      rw [Tree.shapeMap, List.length_map]
      omega
  | addTestSuiteChild p cn ty lp =>
    rcases addTestSuiteChild_cases p cn ty lp t with hc | ⟨⟨pn, hpn⟩, hsh, hn, _, ho⟩
    · rw [applyOp, hc]; exact h
    · refine C9Inv_push true h ?_ hsh hn ho
      have := t.lt_length_of_node? p pn hpn
      rw [Tree.shapeMap, List.length_map]
      omega
  | setOutcome idx o d m dt e a ef af =>
    rcases setOutcome_cases idx o d m dt e a ef af t with hc | ⟨n, f, f', hn, hk, hc⟩
    · rw [applyOp, hc]; exact h
    · rw [applyOp, hc]
      exact C9Inv_of_step (StepFacts_setNode _ idx n _ hn rfl (by simp [kindTag, hk])) h
  | setMetainfo idx mi =>
    rcases setMetainfo_cases idx mi t with hc | ⟨n, f, f', hn, hk, hc⟩
    · rw [applyOp, hc]; exact h
    · rw [applyOp, hc]
      exact C9Inv_of_step (StepFacts_setNode _ idx n _ hn rfl (by simp [kindTag, hk])) h
  | addStdErr idx err =>
    rcases addStdErr_cases idx err t with hc | ⟨n, f, s, hn, hk, _, hc⟩
    · rw [applyOp, hc]; exact h
    · have hidx : idx ≠ 0 := by
        intro hc0
        subst hc0
        have := (h.2.1 _ (shapeMap_lookup t 0 n hn)).2
        rw [hk] at this
        simp [kindTag] at this
      rw [applyOp, hc]
      exact C9Inv_of_step (StepFacts_writeln t _ idx n hn hidx rfl) h
  | startNotify => exact C9Inv_writeln_none t _ rfl h
  | updateRootNode nm c l => exact C9Inv_writeln_none t _ rfl h
  | addTotalTestCount k =>
    rw [applyOp]
    by_cases hk : k > 0 <;> simp only [Tree.addTotalTestCount, hk, if_true, if_false]
    · exact C9Inv_writeln_none t _ rfl h
    · exact h
  | testingStarted => exact C9Inv_writeln_none t _ rfl h
  | testingFinished => exact C9Inv_writeln_none t _ rfl h

theorem run_C9Inv (ops : List Op) (t : Tree)
    (hop : ∀ op ∈ ops, op ≠ Op.register 0 ∧ op ≠ Op.start 0)
    (h : C9Inv t) : C9Inv (run ops t) := by
  induction ops generalizing t with
  | nil => exact h
  | cons op rest ih =>
    exact ih (applyOp op t).1
      (fun o ho => hop o (List.mem_cons_of_mem op ho))
      (applyOp_C9Inv op t (hop op (List.mem_cons_self op rest)) h)

/-- C9 counterexample: `start()` invoked directly on the public root
node is a reachable operation and emits a `testSuiteStarted` line
carrying the root's id `0` as its `nodeId`. -/
theorem root_subject_counterexample :
    (run [Op.start 0] (Tree.new none)).output =
      [⟨"##teamcity[testSuiteStarted nodeId='0' parentNodeId='0' name='hidden root' running='true']",
        some (NodeIdent.num 0)⟩] := rfl

/-- C9 (amended): in every reachable call sequence that never invokes
`register()` or `start()` directly on the root node, no emitted
protocol line carries the root's id as its subject `nodeId`. -/
theorem root_never_message_subject (pre : Option String) (ops : List Op)
    (h : ∀ op ∈ ops, op ≠ Op.register 0 ∧ op ≠ Op.start 0) :
    ∀ line ∈ (run ops (Tree.new pre)).output,
      line.subject ≠ some (NodeIdent.num 0) :=
  (run_C9Inv ops (Tree.new pre) h (C9Inv_new pre)).2.2.2

/-- Ops for the C9 witness: a suite is created, started and finished
with propagation; the session handshake is emitted too. -/
def c9ops : List Op :=
  [Op.startNotify, Op.addTestSuiteChild 0 "A" none none, Op.start 1, Op.finish 1 true]

/-- C9 witness: the amended theorem applied to `c9ops` at the line it
actually emits for the suite. -/
theorem root_never_message_subject_witness :
    (⟨"##teamcity[testSuiteStarted nodeId='1' parentNodeId='0' name='A' running='true']",
      some (NodeIdent.num 1)⟩ : OutLine).subject ≠ some (NodeIdent.num 0) :=
  root_never_message_subject none c9ops (by decide) _ (by decide)

/-! ### Parent ordering.  Children are appended after their parent and
recorded with the parent's position, so in every tree the public API
can build, a node's parent sits at a strictly smaller position.  This
section states that invariant, shows every operation preserves it, and
uses it to characterise an auto-completion cascade of any height. -/

/-- The parent position of each node, in creation order. -/
def Tree.parentMap (t : Tree) : List (Option Nat) :=
  t.nodes.map fun n => n.parent

/-- Every node's parent position is strictly below its own. -/
def ParentsOk (t : Tree) : Prop :=
  ∀ j, ∀ hj : j < t.nodes.length, ∀ q, (t.nodes[j]).parent = some q → q < j

instance (t : Tree) : Decidable (ParentsOk t) := by
  unfold ParentsOk
  infer_instance

theorem ParentsOk.lookup {t : Tree} (h : ParentsOk t) {j q : Nat} {m : NodeData}
    (hm : t.node? j = some m) (hq : m.parent = some q) : q < j := by
  rw [Tree.node?] at hm
  obtain ⟨hj, heq⟩ := List.getElem?_eq_some.mp hm
  exact h j hj q (by rw [heq]; exact hq)

theorem parentMap_writeln (t : Tree) (l : OutLine) :
    (t.writeln l).parentMap = t.parentMap := rfl

theorem parentMap_setNode_keep (t : Tree) (i : Nat) (n m : NodeData)
    (h : t.node? i = some n) (hm : m.parent = n.parent) :
    (t.setNode i m).parentMap = t.parentMap := by
  have hmap : (t.parentMap)[i]? = some n.parent := by
    rw [Tree.parentMap, List.getElem?_map]
    rw [Tree.node?] at h
    rw [h]
    rfl
  calc (t.setNode i m).parentMap
      = t.parentMap.set i m.parent := by
        simp [Tree.parentMap, Tree.setNode, List.map_set]
    _ = t.parentMap := by rw [hm]; exact set_getElem?_self _ _ _ hmap

theorem ParentsOk_of_parentMap_eq {t t' : Tree}
    (h : t'.parentMap = t.parentMap) (hP : ParentsOk t) : ParentsOk t' := by
  intro j hj q hq
  have hlen : t'.nodes.length = t.nodes.length := by
    have := congrArg List.length h
    simpa [Tree.parentMap] using this
  have hj2 : j < t.nodes.length := hlen ▸ hj
  have hpar : (t'.nodes[j]).parent = (t.nodes.get ⟨j, hj2⟩).parent := by
    have := congrArg (fun l => l[j]?) h
    simp only [Tree.parentMap, List.getElem?_map] at this
    rw [List.getElem?_eq_getElem hj, List.getElem?_eq_getElem hj2] at this
    simpa using this
  exact hP j hj2 q (by rw [show t.nodes[j] = t.nodes.get ⟨j, hj2⟩ from rfl, ← hpar]; exact hq)

/-- What a finish call started strictly below position `K` can do,
however high the auto-completion cascade climbs: every node at
position `K` or above is untouched, and every appended line carries
the id of a node that sits strictly below `K` in the starting state.
Holds whether the cascade completes, throws midway, or runs out of
fuel. -/
theorem finishGo_below (K : Nat) : ∀ (fuel idx : Nat) (b : Bool) (t : Tree),
    ParentsOk t → idx < K →
    (∀ j, K ≤ j → (finishGo fuel idx b t).1.node? j = t.node? j) ∧
    ∃ rest, (finishGo fuel idx b t).1.output = t.output ++ rest ∧
      ∀ l ∈ rest, ∃ j m, j < K ∧ t.node? j = some m ∧ l.subject = some m.ident := by
  intro fuel
  induction fuel with
  | zero =>
    intro idx b t _ _
    refine ⟨fun _ _ => ?_, [], ?_, ?_⟩ <;> simp [finishGo]
  | succ fuel ih =>
    intro idx b t hP hK
    cases hnode : t.node? idx with
    | none =>
      simp only [finishGo, hnode]
      refine ⟨fun _ _ => ?_, [], ?_, ?_⟩ <;> simp [finishGo]
    | some n =>
      by_cases h0 : idx = 0
      · simp only [finishGo, hnode, if_pos h0]
        refine ⟨fun _ _ => ?_, [], ?_, ?_⟩ <;> simp [finishGo]
      · by_cases hst : n.state ≠ .registered ∧ n.state ≠ .started
        · simp only [finishGo, hnode, if_neg h0, if_pos hst]
          refine ⟨fun _ _ => ?_, [], ?_, ?_⟩ <;> simp [finishGo]
        · cases hmsg : n.getFinishMessage with
          | error e =>
            simp only [finishGo, hnode, if_neg h0, if_neg hst, hmsg]
            refine ⟨fun _ _ => ?_, [], ?_, ?_⟩ <;> simp [finishGo]
          | ok text =>
            simp only [finishGo, hnode, if_neg h0, if_neg hst, hmsg]
            set t2 := (t.writeln ⟨text, some n.ident⟩).setNode idx
              { n with state := .finished } with hT2
            have ht2n : ∀ j, K ≤ j → t2.node? j = t.node? j := by
              intro j hj
              rw [hT2, Tree.node?_setNode_ne _ _ _ _ (by omega), Tree.node?_writeln]
            have ht2o : t2.output = t.output ++ [⟨text, some n.ident⟩] := rfl
            have hrest1 : ∀ l ∈ [(⟨text, some n.ident⟩ : OutLine)],
                ∃ j m, j < K ∧ t.node? j = some m ∧ l.subject = some m.ident := by
              intro l hl
              rw [List.mem_singleton] at hl
              exact ⟨idx, n, hK, hnode, by rw [hl]⟩
            cases b with
            | false => exact ⟨ht2n, [⟨text, some n.ident⟩], ht2o, hrest1⟩
            | true =>
              simp only [if_true]
              cases hp : n.parent with
              | none => exact ⟨ht2n, [⟨text, some n.ident⟩], ht2o, hrest1⟩
              | some p =>
                have hplt : p < idx := hP.lookup hnode hp
                by_cases hp0 : p ≠ 0
                · simp only [if_pos hp0]
                  cases hp2 : t2.node? p with
                  | none => exact ⟨ht2n, [⟨text, some n.ident⟩], ht2o, hrest1⟩
                  | some pn =>
                    cases hpk : pn.kind with
                    | test f =>
                      simp only [hpk]
                      exact ⟨ht2n, [⟨text, some n.ident⟩], ht2o, hrest1⟩
                    | suite children cnt =>
                      simp only [hpk]
                      set t3 := t2.setNode p { pn with kind := .suite children (cnt + 1) }
                        with hT3
                      have ht3n : ∀ j, K ≤ j → t3.node? j = t.node? j := by
                        intro j hj
                        rw [hT3, Tree.node?_setNode_ne _ _ _ _ (by omega), ht2n j hj]
                      have ht3o : t3.output = t.output ++ [⟨text, some n.ident⟩] := ht2o
                      by_cases hcond : cnt + 1 = children.length ∧ pn.state ≠ .finished
                      · simp only [if_pos hcond]
                        have hP2 : ParentsOk t2 :=
                          ParentsOk_of_parentMap_eq
                            (by rw [hT2, parentMap_setNode_keep
                                (t.writeln ⟨text, some n.ident⟩) idx n
                                { n with state := .finished } hnode rfl,
                              parentMap_writeln]) hP
                        have hP3 : ParentsOk t3 :=
                          ParentsOk_of_parentMap_eq
                            (by rw [hT3, parentMap_setNode_keep t2 p pn
                                { pn with kind := .suite children (cnt + 1) } hp2 rfl]) hP2
                        obtain ⟨ihn, rest2, iho, ihr⟩ := ih p true t3 hP3 (by omega)
                        refine ⟨?_, ⟨text, some n.ident⟩ :: rest2, ?_, ?_⟩
                        · intro j hj
                          rw [ihn j hj, ht3n j hj]
                        · rw [iho, ht3o]
                          simp
                        · intro l hl
                          rcases List.mem_cons.mp hl with hl | hl
                          · exact hrest1 l (by simp [hl])
                          · obtain ⟨j, m, hjK, hm3, hsub⟩ := ihr l hl
                            have hsh : t3.shapeMap = t.shapeMap := by
                              rw [hT3,
                                shapeMap_setNode_keep t2 p pn
                                  { pn with kind := .suite children (cnt + 1) } hp2 rfl
                                  (by simp [kindTag, hpk]),
                                hT2, shapeMap_setNode_keep
                                  (t.writeln ⟨text, some n.ident⟩) idx n
                                  { n with state := .finished } hnode rfl rfl,
                                shapeMap_writeln]
                            obtain ⟨m2, hm2, hid, _⟩ := ident_lookup_of_shapeMap_eq hsh j m hm3
                            exact ⟨j, m2, hjK, hm2, by rw [hsub, hid]⟩
                      · simp only [if_neg hcond]
                        exact ⟨ht3n, [⟨text, some n.ident⟩], ht3o, hrest1⟩
                · simp only [if_neg hp0]
                  exact ⟨ht2n, [⟨text, some n.ident⟩], ht2o, hrest1⟩

/-- A finish call leaves the callee's own id and variant in place: the
node either stays as it was (no-op or throw) or only its lifecycle
state moves to Finished; the cascade above never comes back down. -/
theorem finishGo_kind_at (fuel idx : Nat) (b : Bool) (t : Tree) (hP : ParentsOk t)
    (m : NodeData) (hm : t.node? idx = some m) :
    ∃ m', (finishGo fuel idx b t).1.node? idx = some m' ∧
      m'.kind = m.kind ∧ m'.ident = m.ident := by
  cases fuel with
  | zero => exact ⟨m, hm, rfl, rfl⟩
  | succ fuel =>
    cases hnode : t.node? idx with
    | none => rw [hm] at hnode; cases hnode
    | some n =>
      have hnm : n = m := by rw [hm] at hnode; exact (Option.some.inj hnode).symm
      subst hnm
      by_cases h0 : idx = 0
      · simp only [finishGo, hnode, if_pos h0]
        exact ⟨n, rfl, rfl, rfl⟩
      · by_cases hst : n.state ≠ .registered ∧ n.state ≠ .started
        · simp only [finishGo, hnode, if_pos hst, if_neg h0]
          exact ⟨n, rfl, rfl, rfl⟩
        · cases hmsg : n.getFinishMessage with
          | error e =>
            simp only [finishGo, hnode, if_neg h0, if_neg hst, hmsg]
            exact ⟨n, rfl, rfl, rfl⟩
          | ok text =>
            simp only [finishGo, hnode, if_neg h0, if_neg hst, hmsg]
            set t2 := (t.writeln ⟨text, some n.ident⟩).setNode idx
              { n with state := .finished } with hT2
            have ht2self : t2.node? idx = some { n with state := .finished } := by
              rw [hT2]
              exact Tree.node?_setNode_self _ _ n _ (by rw [Tree.node?_writeln, hm])
            cases b with
            | false => exact ⟨_, ht2self, rfl, rfl⟩
            | true =>
              simp only [if_true]
              cases hp : n.parent with
              | none => exact ⟨_, ht2self, rfl, rfl⟩
              | some p =>
                have hplt : p < idx := hP.lookup hm hp
                by_cases hp0 : p ≠ 0
                · simp only [if_pos hp0]
                  cases hp2 : t2.node? p with
                  | none => exact ⟨_, ht2self, rfl, rfl⟩
                  | some pn =>
                    cases hpk : pn.kind with
                    | test f =>
                      simp only [hpk]
                      exact ⟨_, ht2self, rfl, rfl⟩
                    | suite children cnt =>
                      simp only [hpk]
                      set t3 := t2.setNode p { pn with kind := .suite children (cnt + 1) }
                        with hT3
                      have ht3self : t3.node? idx = some { n with state := .finished } := by
                        rw [hT3, Tree.node?_setNode_ne _ _ _ _ (by omega), ht2self]
                      by_cases hcond : cnt + 1 = children.length ∧ pn.state ≠ .finished
                      · simp only [if_pos hcond]
                        have hP2 : ParentsOk t2 :=
                          ParentsOk_of_parentMap_eq
                            (by rw [hT2, parentMap_setNode_keep
                                (t.writeln ⟨text, some n.ident⟩) idx n
                                { n with state := .finished } hm rfl,
                              parentMap_writeln]) hP
                        have hP3 : ParentsOk t3 :=
                          ParentsOk_of_parentMap_eq
                            (by rw [hT3, parentMap_setNode_keep t2 p pn
                                { pn with kind := .suite children (cnt + 1) } hp2 rfl]) hP2
                        have := (finishGo_below idx fuel p true t3 hP3 hplt).1 idx (le_refl idx)
                        rw [ht3self] at this
                        exact ⟨_, this, rfl, rfl⟩
                      · simp only [if_neg hcond]
                        exact ⟨_, ht3self, rfl, rfl⟩
                · simp only [if_neg hp0]
                  exact ⟨_, ht2self, rfl, rfl⟩

/-- Under strictly increasing allocation (C4's invariant, true of
every reachable tree), nodes at different positions carry different
ids. -/
theorem ident_ne_of_pairwise {t : Tree}
    (hpair : List.Pairwise (· < ·) (t.nodes.map fun x => x.ident.idNum))
    {j p : Nat} {m pn : NodeData}
    (hm : t.node? j = some m) (hpn : t.node? p = some pn) (hjp : j < p) :
    m.ident ≠ pn.ident := by
  rw [Tree.node?] at hm hpn
  obtain ⟨hjl, hje⟩ := List.getElem?_eq_some.mp hm
  obtain ⟨hpl, hpe⟩ := List.getElem?_eq_some.mp hpn
  rw [List.pairwise_iff_getElem] at hpair
  have hlt := hpair j p (by simpa using hjl) (by simpa using hpl) hjp
  rw [List.getElem_map, List.getElem_map, hje, hpe] at hlt
  intro heq
  rw [heq] at hlt
  omega

/-- The id-monotonicity part of the C4 invariant, restated on the raw
node list. -/
theorem pairwise_idNum_of_IdsOk {t : Tree} (h : IdsOk t) :
    List.Pairwise (· < ·) (t.nodes.map fun x => x.ident.idNum) := by
  have hc := h.1
  rw [List.chain'_iff_pairwise] at hc
  have he : (t.shapeMap.map fun pr => pr.1.idNum) =
      t.nodes.map fun x => x.ident.idNum := by
    rw [Tree.shapeMap, List.map_map]
    rfl
  rwa [he] at hc

/-- Every reachable tree has strictly increasing ids in creation
order: the second structural side condition of the amended C3 claim
is no restriction. -/
theorem run_pairwise_idNum (pre : Option String) (ops : List Op) :
    List.Pairwise (· < ·)
      ((run ops (Tree.new pre)).nodes.map fun x => x.ident.idNum) :=
  pairwise_idNum_of_IdsOk (run_IdsOk ops _ (IdsOk_new pre))

/-- A finish call, wherever the cascade goes, never moves a node or
changes a parent link. -/
theorem finishGo_parentMap : ∀ (fuel idx : Nat) (b : Bool) (t : Tree),
    (finishGo fuel idx b t).1.parentMap = t.parentMap := by
  intro fuel
  induction fuel with
  | zero =>
    intro idx b t
    rfl
  | succ fuel ih =>
    intro idx b t
    cases hnode : t.node? idx with
    | none => simp [finishGo, hnode]
    | some n =>
      by_cases h0 : idx = 0
      · simp [finishGo, hnode, if_pos h0]
      · by_cases hst : n.state ≠ .registered ∧ n.state ≠ .started
        · simp [finishGo, hnode, if_neg h0, if_pos hst]
        · cases hmsg : n.getFinishMessage with
          | error e => simp [finishGo, hnode, if_neg h0, if_neg hst, hmsg]
          | ok text =>
            simp only [finishGo, hnode, if_neg h0, if_neg hst, hmsg]
            set t2 := (t.writeln ⟨text, some n.ident⟩).setNode idx
              { n with state := .finished } with hT2
            have ht2 : t2.parentMap = t.parentMap := by
              rw [hT2, parentMap_setNode_keep (t.writeln ⟨text, some n.ident⟩) idx n
                  { n with state := .finished } hnode rfl, parentMap_writeln]
            cases b with
            | false => exact ht2
            | true =>
              simp only [if_true]
              cases hp : n.parent with
              | none => exact ht2
              | some p =>
                by_cases hp0 : p ≠ 0
                · simp only [if_pos hp0]
                  cases hp2 : t2.node? p with
                  | none => exact ht2
                  | some pn =>
                    cases hpk : pn.kind with
                    | test f =>
                      simp only [hpk]
                      exact ht2
                    | suite children cnt =>
                      simp only [hpk]
                      set t3 := t2.setNode p { pn with kind := .suite children (cnt + 1) }
                        with hT3
                      have ht3 : t3.parentMap = t.parentMap := by
                        rw [hT3, parentMap_setNode_keep t2 p pn
                            { pn with kind := .suite children (cnt + 1) } hp2 rfl, ht2]
                      by_cases hcond : cnt + 1 = children.length ∧ pn.state ≠ .finished
                      · simp only [if_pos hcond]
                        rw [ih p true t3, ht3]
                      · simp only [if_neg hcond]
                        exact ht3
                · simp only [if_neg hp0]
                  exact ht2

/-- Neither does a forced finish of a whole worklist. -/
theorem finishListGo_parentMap : ∀ (fuel : Nat) (ws : List Nat) (t : Tree),
    (finishListGo fuel ws t).1.parentMap = t.parentMap := by
  intro fuel
  induction fuel with
  | zero =>
    intro ws t
    rfl
  | succ fuel ih =>
    intro ws t
    cases ws with
    | nil => rfl
    | cons idx rest =>
      cases hnode : t.node? idx with
      | none => simp [finishListGo, hnode]
      | some n =>
        by_cases hst : n.state ≠ .finished
        · cases hk : n.kind with
          | test f => simp [finishListGo, hnode, hst, hk]
          | suite children cnt =>
            simp only [finishListGo, hnode, if_pos hst, hk]
            cases hrec : finishListGo fuel children t with
            | mk t1 e1 =>
              have h1 : t1.parentMap = t.parentMap := by
                have hh := ih children t
                rw [hrec] at hh
                exact hh
              cases e1 with
              | some e => exact h1
              | none =>
                dsimp only
                cases hgo : finishGo (idx + 1) idx false t1 with
                | mk t2 e2 =>
                  have h2 : t2.parentMap = t1.parentMap := by
                    have hh := finishGo_parentMap (idx + 1) idx false t1
                    rw [hgo] at hh
                    exact hh
                  cases e2 with
                  | some e => exact h2.trans h1
                  | none => exact (ih rest t2).trans (h2.trans h1)
        · simp only [finishListGo, hnode, if_neg hst]
          exact ih rest t

/-- The starting state satisfies the parent-before-child invariant. -/
theorem ParentsOk_new (pre : Option String) : ParentsOk (Tree.new pre) := by
  intro j hj q hq
  have hj1 : j < 1 := by simpa [Tree.new] using hj
  have hj0 : j = 0 := by omega
  subst hj0
  simp [Tree.new, rootNode] at hq

/-- Appending one node whose parent is an existing position keeps the
parent-before-child invariant. -/
theorem ParentsOk_push (t t' : Tree) (p : Nat) (hp : p < t.nodes.length)
    (h : t'.parentMap = t.parentMap ++ [some p]) (hP : ParentsOk t) : ParentsOk t' := by
  intro j hj q hq
  have hlen : t'.nodes.length = t.nodes.length + 1 := by
    have hc := congrArg List.length h
    simpa [Tree.parentMap] using hc
  have hget := congrArg (fun l => l[j]?) h
  simp only [Tree.parentMap, List.getElem?_map] at hget
  rw [List.getElem?_eq_getElem hj] at hget
  rw [List.getElem?_append] at hget
  by_cases hjt : j < t.nodes.length
  · rw [if_pos (by simpa using hjt)] at hget
    rw [List.getElem?_map, List.getElem?_eq_getElem hjt] at hget
    have hpar : (t'.nodes[j]).parent = (t.nodes.get ⟨j, hjt⟩).parent := by
      simpa using hget
    rw [hpar] at hq
    exact hP j hjt q hq
  · rw [if_neg (by simpa using hjt)] at hget
    have hj0 : j - (t.nodes.map fun x => x.parent).length = 0 := by
      simp only [List.length_map]
      omega
    rw [hj0] at hget
    have hpar : (t'.nodes[j]).parent = some p := by simpa using hget
    rw [hpar] at hq
    have hpq : p = q := by simpa using hq
    omega

/-- `addTestChild` keeps every existing parent link and gives the new
node an existing parent position. -/
theorem addTestChild_parentMap (p : Nat) (cn : String) (ty lp : Option String) (t : Tree) :
    (TestSuiteNode.addTestChild p cn ty lp t).1.parentMap = t.parentMap ∨
    (∃ pn, t.node? p = some pn ∧
      (TestSuiteNode.addTestChild p cn ty lp t).1.parentMap =
        t.parentMap ++ [some p]) := by
  unfold TestSuiteNode.addTestChild
  cases hnode : t.node? p with
  | none => exact Or.inl rfl
  | some pn =>
    cases hk : pn.kind with
    | test f => left; simp [hk]
    | suite children cnt =>
      by_cases hs : pn.state = .finished
      · left
        simp [hk, hs]
      · refine Or.inr ⟨pn, rfl, ?_⟩
        have hmap : (t.nodes.map fun x => x.parent)[p]? = some pn.parent := by
          rw [List.getElem?_map]
          rw [Tree.node?] at hnode
          rw [hnode]
          rfl
        simp only [hk]
        rw [if_neg hs]
        show (Tree.parentMap ⟨t.idPrefix, t.nextId + 1, _, t.output⟩) = _
        rw [Tree.parentMap]
        rw [List.map_append]
        have hset : ((t.nodes.set p
            { pn with kind := .suite (children ++ [t.nodes.length]) cnt }).map
            fun x => x.parent) = t.parentMap := by
          rw [List.map_set]
          dsimp only
          exact set_getElem?_self _ _ _ hmap
        rw [hset]
        rfl

/-- As `addTestChild_parentMap`, for suite children. -/
theorem addTestSuiteChild_parentMap (p : Nat) (cn : String) (ty lp : Option String)
    (t : Tree) :
    (TestSuiteNode.addTestSuiteChild p cn ty lp t).1.parentMap = t.parentMap ∨
    (∃ pn, t.node? p = some pn ∧
      (TestSuiteNode.addTestSuiteChild p cn ty lp t).1.parentMap =
        t.parentMap ++ [some p]) := by
  unfold TestSuiteNode.addTestSuiteChild
  cases hnode : t.node? p with
  | none => exact Or.inl rfl
  | some pn =>
    cases hk : pn.kind with
    | test f => left; simp [hk]
    | suite children cnt =>
      by_cases hs : pn.state = .finished
      · left
        simp [hk, hs]
      · refine Or.inr ⟨pn, rfl, ?_⟩
        have hmap : (t.nodes.map fun x => x.parent)[p]? = some pn.parent := by
          rw [List.getElem?_map]
          rw [Tree.node?] at hnode
          rw [hnode]
          rfl
        simp only [hk]
        rw [if_neg hs]
        show (Tree.parentMap ⟨t.idPrefix, t.nextId + 1, _, t.output⟩) = _
        rw [Tree.parentMap]
        rw [List.map_append]
        have hset : ((t.nodes.set p
            { pn with kind := .suite (children ++ [t.nodes.length]) cnt }).map
            fun x => x.parent) = t.parentMap := by
          rw [List.map_set]
          dsimp only
          exact set_getElem?_self _ _ _ hmap
        rw [hset]
        rfl

/-- Every public call keeps the parent-before-child invariant. -/
theorem applyOp_ParentsOk (op : Op) (t : Tree) (h : ParentsOk t) :
    ParentsOk (applyOp op t).1 := by
  cases op with
  | register idx =>
    simp only [applyOp]
    rcases register_cases idx t with hr | ⟨n, hn, _, hr⟩
    · rw [hr]
      exact h
    · rw [hr]
      refine ParentsOk_of_parentMap_eq ?_ h
      rw [parentMap_setNode_keep _ idx n { n with state := .registered }
          (by rw [Tree.node?_writeln]; exact hn) rfl, parentMap_writeln]
  | start idx =>
    simp only [applyOp]
    rcases start_cases idx t with hr | ⟨n, text, hn, _, hr⟩
    · rw [hr]
      exact h
    · rw [hr]
      refine ParentsOk_of_parentMap_eq ?_ h
      rw [parentMap_setNode_keep _ idx n { n with state := .started }
          (by rw [Tree.node?_writeln]; exact hn) rfl, parentMap_writeln]
  | finish idx b =>
    simp only [applyOp]
    exact ParentsOk_of_parentMap_eq (finishGo_parentMap (idx + 1) idx b t) h
  | finishIfStarted idx =>
    simp only [applyOp]
    exact ParentsOk_of_parentMap_eq
      (finishListGo_parentMap ((t.nodes.length + 1) * (t.nodes.length + 1)) [idx] t) h
  | addTestChild p cn ty lp =>
    simp only [applyOp]
    rcases addTestChild_parentMap p cn ty lp t with hm | ⟨pn, hpn, hm⟩
    · exact ParentsOk_of_parentMap_eq hm h
    · exact ParentsOk_push t _ p (t.lt_length_of_node? p pn hpn) hm h
  | addTestSuiteChild p cn ty lp =>
    simp only [applyOp]
    rcases addTestSuiteChild_parentMap p cn ty lp t with hm | ⟨pn, hpn, hm⟩
    · exact ParentsOk_of_parentMap_eq hm h
    · exact ParentsOk_push t _ p (t.lt_length_of_node? p pn hpn) hm h
  | setOutcome idx o d m dt e a ef af =>
    simp only [applyOp]
    rcases setOutcome_cases idx o d m dt e a ef af t with hr | ⟨n, f, f', hn, _, hr⟩
    · rw [hr]
      exact h
    · rw [hr]
      refine ParentsOk_of_parentMap_eq ?_ h
      rw [parentMap_setNode_keep t idx n { n with kind := .test f' } hn rfl]
  | setMetainfo idx mi =>
    simp only [applyOp]
    rcases setMetainfo_cases idx mi t with hr | ⟨n, f, f', hn, _, hr⟩
    · rw [hr]
      exact h
    · rw [hr]
      refine ParentsOk_of_parentMap_eq ?_ h
      rw [parentMap_setNode_keep t idx n { n with kind := .test f' } hn rfl]
  | addStdErr idx err =>
    simp only [applyOp]
    rcases addStdErr_cases idx err t with hr | ⟨n, f, s, _, _, _, hr⟩
    · rw [hr]
      exact h
    · rw [hr]
      exact ParentsOk_of_parentMap_eq (parentMap_writeln t _) h
  | startNotify =>
    exact ParentsOk_of_parentMap_eq rfl h
  | updateRootNode nm c l =>
    exact ParentsOk_of_parentMap_eq rfl h
  | addTotalTestCount k =>
    refine ParentsOk_of_parentMap_eq ?_ h
    show (t.addTotalTestCount k).parentMap = t.parentMap
    unfold Tree.addTotalTestCount
    split <;> rfl
  | testingStarted =>
    exact ParentsOk_of_parentMap_eq rfl h
  | testingFinished =>
    exact ParentsOk_of_parentMap_eq rfl h

/-- Every reachable tree keeps each parent strictly before its child:
the first structural side condition of the amended C3 claim is no
restriction. -/
theorem run_ParentsOk (pre : Option String) (ops : List Op) :
    ParentsOk (run ops (Tree.new pre)) := by
  have hgen : ∀ (l : List Op) (t : Tree), ParentsOk t → ParentsOk (run l t) := by
    intro l
    induction l with
    | nil => intro t ht; exact ht
    | cons op rest ih => intro t ht; exact ih (applyOp op t).1 (applyOp_ParentsOk op t ht)
  exact hgen ops (Tree.new pre) (ParentsOk_new pre)

/-- C3 (amended): for every non-root suite that is Registered or
Started when one of its children finishes with propagation enabled:
when that child is not the last one to finish (or the suite is
somehow already Finished) the suite only advances its
finished-children counter and emits nothing of its own; when it is
the last, the suite transitions to Finished immediately and emits its
testSuiteFinished line exactly once — every further line the upward
cascade appends carries some other node's id — and the automatic
finish itself propagates: a top-level suite (parent the hidden root)
ends the call right there with no error, and a deeper grandparent
suite always has its own finished-children counter incremented, its
id and children list untouched, whatever the cascade above it does.
The two structural side conditions — each parent sits before its
child, ids strictly increasing in creation order — hold of every
reachable tree (`run_ParentsOk`, `run_pairwise_idNum`). -/
theorem suite_autofinish_amended (t : Tree) (c p : Nat) (n pn : NodeData)
    (pch : List Nat) (pcnt : Nat) (msg : String)
    (hc : t.node? c = some n) (hc0 : c ≠ 0) (hcp : n.parent = some p)
    (hpc : p ≠ c) (hp0 : p ≠ 0)
    (hn : n.state = .registered ∨ n.state = .started)
    (hmsg : n.getFinishMessage = .ok msg)
    (hpn : t.node? p = some pn) (hpk : pn.kind = .suite pch pcnt) :
    ((pcnt + 1 ≠ pch.length ∨ pn.state = .finished) →
      Node.finish c true t =
        (((t.writeln ⟨msg, some n.ident⟩).setNode c { n with state := .finished }).setNode p
            { pn with kind := .suite pch (pcnt + 1) }, none)) ∧
    (pcnt + 1 = pch.length → (pn.state = .registered ∨ pn.state = .started) →
      ParentsOk t → List.Pairwise (· < ·) (t.nodes.map fun x => x.ident.idNum) →
      (Node.finish c true t).1.node? c = some { n with state := .finished } ∧
      (Node.finish c true t).1.node? p =
        some { pn with kind := .suite pch (pcnt + 1), state := .finished } ∧
      (∃ rest, (Node.finish c true t).1.output =
          t.output ++ [⟨msg, some n.ident⟩,
            ⟨"##teamcity[" ++ "testSuiteFinished" ++ " nodeId='"
              ++ pn.ident.render ++ "'" ++ "]", some pn.ident⟩] ++ rest ∧
        ∀ l ∈ rest, l.subject ≠ some pn.ident) ∧
      ((pn.parent = none ∨ pn.parent = some 0) →
        Node.finish c true t =
          (((((t.writeln ⟨msg, some n.ident⟩).setNode c
              { n with state := .finished }).setNode p
              { pn with kind := .suite pch (pcnt + 1) }).writeln
              ⟨"##teamcity[" ++ "testSuiteFinished" ++ " nodeId='"
                ++ pn.ident.render ++ "'" ++ "]", some pn.ident⟩).setNode p
              { pn with kind := .suite pch (pcnt + 1), state := .finished }, none)) ∧
      (∀ g gn gch gcnt, pn.parent = some g → g ≠ 0 → t.node? g = some gn →
        gn.kind = .suite gch gcnt →
        ∃ gn', (Node.finish c true t).1.node? g = some gn' ∧
          gn'.kind = .suite gch (gcnt + 1) ∧ gn'.ident = gn.ident)) := by
  obtain ⟨c', rfl⟩ : ∃ c', c = c' + 1 :=
    ⟨c - 1, (Nat.succ_pred_eq_of_pos (Nat.pos_of_ne_zero hc0)).symm⟩
  have hne : (c' + 1 : Nat) ≠ p := fun hh => hpc hh.symm
  have h2 : ∀ m : NodeData,
      ((t.writeln ⟨msg, some n.ident⟩).setNode (c' + 1) m).node? p = some pn := by
    intro m
    rw [Tree.node?_setNode_ne _ _ _ _ hne, Tree.node?_writeln, hpn]
  constructor
  · intro hstop
    rcases hstop with hstop | hstop <;> rcases hn with hn | hn <;>
      simp [Node.finish, finishGo, hc, hcp, hpc, hp0, hn, hmsg, h2, hpk, hstop]
  · intro hlast hnp hP hpair
    have hplt : p < c' + 1 := hP.lookup hc hcp
    have h3 : ∀ m q : NodeData,
        (((t.writeln ⟨msg, some n.ident⟩).setNode (c' + 1) m).setNode p q).node? p =
          some q := fun m q => Tree.node?_setNode_self _ _ _ _ (h2 m)
    have hcn : ∀ (m q : NodeData) (l : OutLine) (r : NodeData),
        (((((t.writeln ⟨msg, some n.ident⟩).setNode (c' + 1) m).setNode p q).writeln
            l).setNode p r).node? (c' + 1) = some m := by
      intro m q l r
      rw [Tree.node?_setNode_ne _ _ _ _ (fun hh => hne hh.symm), Tree.node?_writeln,
        Tree.node?_setNode_ne _ _ _ _ (fun hh => hne hh.symm)]
      exact Tree.node?_setNode_self _ _ n _ (by rw [Tree.node?_writeln, hc])
    have hpn5 : ∀ (m q : NodeData) (l : OutLine) (r : NodeData),
        (((((t.writeln ⟨msg, some n.ident⟩).setNode (c' + 1) m).setNode p q).writeln
            l).setNode p r).node? p = some r := by
      intro m q l r
      refine Tree.node?_setNode_self _ _ q _ ?_
      rw [Tree.node?_writeln]
      exact h3 m q
    have hout : ∀ j, j ≠ p → j ≠ c' + 1 →
        ∀ (m q : NodeData) (l : OutLine) (r : NodeData),
        (((((t.writeln ⟨msg, some n.ident⟩).setNode (c' + 1) m).setNode p q).writeln
            l).setNode p r).node? j = t.node? j := by
      intro j hjp hjc m q l r
      rw [Tree.node?_setNode_ne _ _ _ _ (fun hh => hjp hh.symm), Tree.node?_writeln,
        Tree.node?_setNode_ne _ _ _ _ (fun hh => hjp hh.symm),
        Tree.node?_setNode_ne _ _ _ _ (fun hh => hjc hh.symm), Tree.node?_writeln]
    have ho5 : ∀ (m q : NodeData) (l : OutLine) (r : NodeData),
        (((((t.writeln ⟨msg, some n.ident⟩).setNode (c' + 1) m).setNode p q).writeln
            l).setNode p r).output = t.output ++ [⟨msg, some n.ident⟩, l] := by
      intro m q l r
      simp [Tree.writeln, Tree.setNode]
    have hnf : pn.state ≠ .finished := by
      rcases hnp with h | h <;> simp [h]
    have hnsf : ¬(n.state ≠ .registered ∧ n.state ≠ .started) := by
      rcases hn with h | h <;> simp [h]
    have hpsf : ¬(pn.state ≠ .registered ∧ pn.state ≠ .started) := by
      rcases hnp with h | h <;> simp [h]
    obtain hgp | ⟨g, hgp⟩ : pn.parent = none ∨ ∃ g, pn.parent = some g := by
      cases pn.parent
      · exact Or.inl rfl
      · exact Or.inr ⟨_, rfl⟩
    ·
      have key : Node.finish (c' + 1) true t =
          (((((t.writeln ⟨msg, some n.ident⟩).setNode (c' + 1)
              { n with state := .finished }).setNode p
              { pn with kind := .suite pch (pcnt + 1) }).writeln
              ⟨"##teamcity[" ++ "testSuiteFinished" ++ " nodeId='"
                ++ pn.ident.render ++ "'" ++ "]", some pn.ident⟩).setNode p
              { pn with kind := .suite pch (pcnt + 1), state := .finished }, none) := by
        simp [Node.finish, finishGo, hc, hcp, hpc, hp0, hmsg, h2, h3, hpk,
          hnsf, hpsf, hlast, hnf, getFinishMessage_mk_suite, hgp]
      refine ⟨?_, ?_, ?_, fun _ => key, ?_⟩
      · rw [key]
        exact hcn _ _ _ _
      · rw [key]
        exact hpn5 _ _ _ _
      · refine ⟨[], ?_, by simp⟩
        rw [key]
        simp [ho5]
      · intro g2 gn2 gch2 gcnt2 hgp2 _ _ _
        rw [hgp] at hgp2
        cases hgp2
    · by_cases hg0 : g = 0
      · subst hg0
        have key : Node.finish (c' + 1) true t =
            (((((t.writeln ⟨msg, some n.ident⟩).setNode (c' + 1)
                { n with state := .finished }).setNode p
                { pn with kind := .suite pch (pcnt + 1) }).writeln
                ⟨"##teamcity[" ++ "testSuiteFinished" ++ " nodeId='"
                  ++ pn.ident.render ++ "'" ++ "]", some pn.ident⟩).setNode p
                { pn with kind := .suite pch (pcnt + 1), state := .finished }, none) := by
          simp [Node.finish, finishGo, hc, hcp, hpc, hp0, hmsg, h2, h3, hpk,
            hnsf, hpsf, hlast, hnf, getFinishMessage_mk_suite, hgp]
        refine ⟨?_, ?_, ?_, fun _ => key, ?_⟩
        · rw [key]
          exact hcn _ _ _ _
        · rw [key]
          exact hpn5 _ _ _ _
        · refine ⟨[], ?_, by simp⟩
          rw [key]
          simp [ho5]
        · intro g2 gn2 gch2 gcnt2 hgp2 hg02 _ _
          rw [hgp] at hgp2
          cases hgp2
          exact absurd rfl hg02
      · have hglt : g < p := hP.lookup hpn hgp
        have hgp' : g ≠ p := Nat.ne_of_lt hglt
        have hgc : g ≠ c' + 1 := by omega
        cases hgn : t.node? g with
        | none =>
          have h4 : ∀ (m q : NodeData) (l : OutLine) (r : NodeData),
              (((((t.writeln ⟨msg, some n.ident⟩).setNode (c' + 1) m).setNode p q).writeln
                  l).setNode p r).node? g = none := by
            intro m q l r
            rw [hout g hgp' hgc]
            exact hgn
          have key : Node.finish (c' + 1) true t =
              (((((t.writeln ⟨msg, some n.ident⟩).setNode (c' + 1)
                  { n with state := .finished }).setNode p
                  { pn with kind := .suite pch (pcnt + 1) }).writeln
                  ⟨"##teamcity[" ++ "testSuiteFinished" ++ " nodeId='"
                    ++ pn.ident.render ++ "'" ++ "]", some pn.ident⟩).setNode p
                  { pn with kind := .suite pch (pcnt + 1), state := .finished },
                some (.typeError "undefined node")) := by
            simp [Node.finish, finishGo, hc, hcp, hpc, hp0, hmsg, h2, h3, h4, hpk,
              hnsf, hpsf, hlast, hnf, getFinishMessage_mk_suite, hgp, hg0]
          refine ⟨?_, ?_, ?_, ?_, ?_⟩
          · rw [key]
            exact hcn _ _ _ _
          · rw [key]
            exact hpn5 _ _ _ _
          · refine ⟨[], ?_, by simp⟩
            rw [key]
            simp [ho5]
          · intro hd
            exfalso
            rcases hd with hd | hd
            · rw [hgp] at hd
              cases hd
            · rw [hgp] at hd
              exact hg0 (Option.some.inj hd)
          · intro g2 gn2 gch2 gcnt2 hgp2 hg02 hgn2 hgk2
            rw [hgp] at hgp2
            cases hgp2
            rw [hgn] at hgn2
            cases hgn2
        | some gn =>
          have h4 : ∀ (m q : NodeData) (l : OutLine) (r : NodeData),
              (((((t.writeln ⟨msg, some n.ident⟩).setNode (c' + 1) m).setNode p q).writeln
                  l).setNode p r).node? g = some gn := by
            intro m q l r
            rw [hout g hgp' hgc]
            exact hgn
          cases hgk : gn.kind with
          | test f =>
            have key : Node.finish (c' + 1) true t =
                (((((t.writeln ⟨msg, some n.ident⟩).setNode (c' + 1)
                    { n with state := .finished }).setNode p
                    { pn with kind := .suite pch (pcnt + 1) }).writeln
                    ⟨"##teamcity[" ++ "testSuiteFinished" ++ " nodeId='"
                      ++ pn.ident.render ++ "'" ++ "]", some pn.ident⟩).setNode p
                    { pn with kind := .suite pch (pcnt + 1), state := .finished },
                  some (.typeError "onChildFinished is not a function")) := by
              simp [Node.finish, finishGo, hc, hcp, hpc, hp0, hmsg, h2, h3, h4, hpk,
                hnsf, hpsf, hlast, hnf, getFinishMessage_mk_suite, hgp, hg0, hgk]
            refine ⟨?_, ?_, ?_, ?_, ?_⟩
            · rw [key]
              exact hcn _ _ _ _
            · rw [key]
              exact hpn5 _ _ _ _
            · refine ⟨[], ?_, by simp⟩
              rw [key]
              simp [ho5]
            · intro hd
              exfalso
              rcases hd with hd | hd
              · rw [hgp] at hd
                cases hd
              · rw [hgp] at hd
                exact hg0 (Option.some.inj hd)
            · intro g2 gn2 gch2 gcnt2 hgp2 hg02 hgn2 hgk2
              rw [hgp] at hgp2
              cases hgp2
              rw [hgn] at hgn2
              cases hgn2
              rw [hgk] at hgk2
              cases hgk2
          | suite gch gcnt =>
            have h6c : ∀ l : OutLine,
                ((((((t.writeln ⟨msg, some n.ident⟩).setNode (c' + 1)
                    { n with state := .finished }).setNode p
                    { pn with kind := .suite pch (pcnt + 1) }).writeln l).setNode p
                    { pn with kind := .suite pch (pcnt + 1), state := .finished }).setNode g
                    { gn with kind := .suite gch (gcnt + 1) }).node? (c' + 1) =
                  some { n with state := .finished } := by
              intro l
              rw [Tree.node?_setNode_ne _ _ _ _ hgc]
              exact hcn _ _ _ _
            have h6p : ∀ l : OutLine,
                ((((((t.writeln ⟨msg, some n.ident⟩).setNode (c' + 1)
                    { n with state := .finished }).setNode p
                    { pn with kind := .suite pch (pcnt + 1) }).writeln l).setNode p
                    { pn with kind := .suite pch (pcnt + 1), state := .finished }).setNode g
                    { gn with kind := .suite gch (gcnt + 1) }).node? p =
                  some { pn with kind := .suite pch (pcnt + 1), state := .finished } := by
              intro l
              rw [Tree.node?_setNode_ne _ _ _ _ hgp']
              exact hpn5 _ _ _ _
            have h6g : ∀ l : OutLine,
                ((((((t.writeln ⟨msg, some n.ident⟩).setNode (c' + 1)
                    { n with state := .finished }).setNode p
                    { pn with kind := .suite pch (pcnt + 1) }).writeln l).setNode p
                    { pn with kind := .suite pch (pcnt + 1), state := .finished }).setNode g
                    { gn with kind := .suite gch (gcnt + 1) }).node? g =
                  some { gn with kind := .suite gch (gcnt + 1) } := by
              intro l
              exact Tree.node?_setNode_self _ _ gn _ (h4 _ _ _ _)
            have h6o : ∀ l : OutLine,
                ((((((t.writeln ⟨msg, some n.ident⟩).setNode (c' + 1)
                    { n with state := .finished }).setNode p
                    { pn with kind := .suite pch (pcnt + 1) }).writeln l).setNode p
                    { pn with kind := .suite pch (pcnt + 1), state := .finished }).setNode g
                    { gn with kind := .suite gch (gcnt + 1) }).output =
                  t.output ++ [⟨msg, some n.ident⟩, l] := by
              intro l
              simp [Tree.writeln, Tree.setNode]
            have hpm6 : ∀ l : OutLine,
                ((((((t.writeln ⟨msg, some n.ident⟩).setNode (c' + 1)
                    { n with state := .finished }).setNode p
                    { pn with kind := .suite pch (pcnt + 1) }).writeln l).setNode p
                    { pn with kind := .suite pch (pcnt + 1), state := .finished }).setNode g
                    { gn with kind := .suite gch (gcnt + 1) }).parentMap = t.parentMap := by
              intro l
              rw [parentMap_setNode_keep _ g gn { gn with kind := .suite gch (gcnt + 1) }
                  (h4 _ _ _ _) rfl,
                parentMap_setNode_keep _ p { pn with kind := .suite pch (pcnt + 1) }
                  { pn with kind := .suite pch (pcnt + 1), state := .finished }
                  (by rw [Tree.node?_writeln]; exact h3 _ _) rfl,
                parentMap_writeln,
                parentMap_setNode_keep _ p pn { pn with kind := .suite pch (pcnt + 1) }
                  (h2 _) rfl,
                parentMap_setNode_keep _ (c' + 1) n { n with state := .finished }
                  (by rw [Tree.node?_writeln]; exact hc) rfl,
                parentMap_writeln]
            have hP6 : ∀ l : OutLine,
                ParentsOk
                  ((((((t.writeln ⟨msg, some n.ident⟩).setNode (c' + 1)
                    { n with state := .finished }).setNode p
                    { pn with kind := .suite pch (pcnt + 1) }).writeln l).setNode p
                    { pn with kind := .suite pch (pcnt + 1), state := .finished }).setNode g
                    { gn with kind := .suite gch (gcnt + 1) }) := fun l =>
              ParentsOk_of_parentMap_eq (hpm6 l) hP
            have hsm6 : ∀ l : OutLine,
                ((((((t.writeln ⟨msg, some n.ident⟩).setNode (c' + 1)
                    { n with state := .finished }).setNode p
                    { pn with kind := .suite pch (pcnt + 1) }).writeln l).setNode p
                    { pn with kind := .suite pch (pcnt + 1), state := .finished }).setNode g
                    { gn with kind := .suite gch (gcnt + 1) }).shapeMap = t.shapeMap := by
              intro l
              rw [shapeMap_setNode_keep _ g gn { gn with kind := .suite gch (gcnt + 1) }
                  (h4 _ _ _ _) rfl (by simp [kindTag, hgk]),
                shapeMap_setNode_keep _ p { pn with kind := .suite pch (pcnt + 1) }
                  { pn with kind := .suite pch (pcnt + 1), state := .finished }
                  (by rw [Tree.node?_writeln]; exact h3 _ _) rfl rfl,
                shapeMap_writeln,
                shapeMap_setNode_keep _ p pn { pn with kind := .suite pch (pcnt + 1) }
                  (h2 _) rfl (by simp [kindTag, hpk]),
                shapeMap_setNode_keep _ (c' + 1) n { n with state := .finished }
                  (by rw [Tree.node?_writeln]; exact hc) rfl rfl,
                shapeMap_writeln]
            by_cases hcond : gcnt + 1 = gch.length ∧ gn.state ≠ .finished
            · have key : Node.finish (c' + 1) true t =
                  finishGo c' g true
                    ((((((t.writeln ⟨msg, some n.ident⟩).setNode (c' + 1)
                        { n with state := .finished }).setNode p
                        { pn with kind := .suite pch (pcnt + 1) }).writeln
                        ⟨"##teamcity[" ++ "testSuiteFinished" ++ " nodeId='"
                          ++ pn.ident.render ++ "'" ++ "]", some pn.ident⟩).setNode p
                        { pn with kind := .suite pch (pcnt + 1), state := .finished }).setNode g
                        { gn with kind := .suite gch (gcnt + 1) }) := by
                simp [Node.finish, finishGo, hc, hcp, hpc, hp0, hmsg, h2, h3, h4, hpk,
                  hnsf, hpsf, hlast, hnf, getFinishMessage_mk_suite, hgp, hg0, hgk, hcond]
              obtain ⟨hunt, rest2, hro, hrr⟩ :=
                finishGo_below p c' g true _
                  (hP6 ⟨"##teamcity[" ++ "testSuiteFinished" ++ " nodeId='"
                    ++ pn.ident.render ++ "'" ++ "]", some pn.ident⟩) hglt
              refine ⟨?_, ?_, ?_, ?_, ?_⟩
              · rw [key, hunt (c' + 1) (Nat.le_of_lt hplt)]
                exact h6c _
              · rw [key, hunt p (Nat.le_refl p)]
                exact h6p _
              · refine ⟨rest2, ?_, ?_⟩
                · rw [key, hro, h6o, List.append_assoc]
                · intro l hl
                  obtain ⟨j, m, hjp, hm6, hsub⟩ := hrr l hl
                  obtain ⟨m2, hm2, hid, _⟩ := ident_lookup_of_shapeMap_eq (hsm6 _) j m hm6
                  intro hcontra
                  rw [hsub] at hcontra
                  exact ident_ne_of_pairwise hpair hm2 hpn hjp
                    (by rw [hid]; exact Option.some.inj hcontra)
              · intro hd
                exfalso
                rcases hd with hd | hd
                · rw [hgp] at hd
                  cases hd
                · rw [hgp] at hd
                  exact hg0 (Option.some.inj hd)
              · intro g2 gn2 gch2 gcnt2 hgp2 hg02 hgn2 hgk2
                rw [hgp] at hgp2
                cases hgp2
                rw [hgn] at hgn2
                cases hgn2
                rw [hgk] at hgk2
                cases hgk2
                obtain ⟨m', hm', hk, hi⟩ :=
                  finishGo_kind_at c' g true _
                    (hP6 ⟨"##teamcity[" ++ "testSuiteFinished" ++ " nodeId='"
                      ++ pn.ident.render ++ "'" ++ "]", some pn.ident⟩) _ (h6g _)
                exact ⟨m', by rw [key]; exact hm', hk, hi⟩
            · have key : Node.finish (c' + 1) true t =
                  (((((((t.writeln ⟨msg, some n.ident⟩).setNode (c' + 1)
                      { n with state := .finished }).setNode p
                      { pn with kind := .suite pch (pcnt + 1) }).writeln
                      ⟨"##teamcity[" ++ "testSuiteFinished" ++ " nodeId='"
                        ++ pn.ident.render ++ "'" ++ "]", some pn.ident⟩).setNode p
                      { pn with kind := .suite pch (pcnt + 1), state := .finished }).setNode g
                      { gn with kind := .suite gch (gcnt + 1) }), none) := by
                simp [Node.finish, finishGo, hc, hcp, hpc, hp0, hmsg, h2, h3, h4, hpk,
                  hnsf, hpsf, hlast, hnf, getFinishMessage_mk_suite, hgp, hg0, hgk, hcond]
              refine ⟨?_, ?_, ?_, ?_, ?_⟩
              · rw [key]
                exact h6c _
              · rw [key]
                exact h6p _
              · refine ⟨[], ?_, by simp⟩
                rw [key]
                simp [h6o]
              · intro hd
                exfalso
                rcases hd with hd | hd
                · rw [hgp] at hd
                  cases hd
                · rw [hgp] at hd
                  exact hg0 (Option.some.inj hd)
              · intro g2 gn2 gch2 gcnt2 hgp2 hg02 hgn2 hgk2
                rw [hgp] at hgp2
                cases hgp2
                rw [hgn] at hgn2
                cases hgn2
                rw [hgk] at hgk2
                cases hgk2
                exact ⟨{ gn with kind := .suite gch (gcnt + 1) },
                  by rw [key]; exact h6g _, rfl, rfl⟩

/-- Top-level Started suite (parent the hidden root) for the C3
witness. -/
def c3topSuite : NodeData :=
  { ident := .num 1, parent := some 0, name := "top", nodeType := none,
    locationPath := none, state := .started, kind := .suite [2] 0 }

/-- Its single Started leaf child, outcome already set. -/
def c3topLeaf : NodeData :=
  { ident := .num 2, parent := some 1, name := "t1", nodeType := none,
    locationPath := none, state := .started, kind := .test { outcome := some .success } }

/-- A tree whose only suite sits directly under the root: finishing
its last child must auto-finish the suite and end the cascade there. -/
def c3top : Tree :=
  { idPrefix := none, nextId := 3,
    nodes := [rootNode, c3topSuite, c3topLeaf], output := [] }

/-- C3 witness: the theorem applied three times.  In `c3tree`,
finishing suite 5 (not the last child of suite 1) only moves suite 1's
counter; finishing leaf 4 (the last child of suite 2) finishes suite 2
and increments the deeper grandparent suite 1.  In `c3top`, finishing
leaf 2 auto-finishes the top-level suite under the root, emitting the
child line and the suite line and nothing else. -/
theorem suite_autofinish_amended_witness :
    Node.finish 5 true c3tree =
      (((c3tree.writeln ⟨"##teamcity[" ++ "testSuiteFinished" ++ " nodeId='"
            ++ (NodeIdent.num 5).render ++ "'" ++ "]", some (.num 5)⟩).setNode 5
          { c3q with state := .finished }).setNode 1
          { c3g with kind := .suite [2, 5] 1 }, none) ∧
    ((Node.finish 4 true c3tree).1.node? 4 = some { c3b with state := .finished } ∧
      (Node.finish 4 true c3tree).1.node? 2 =
        some { c3p with kind := .suite [3, 4] 2, state := .finished } ∧
      ∃ gn', (Node.finish 4 true c3tree).1.node? 1 = some gn' ∧
        gn'.kind = .suite [2, 5] 1 ∧ gn'.ident = .num 1) ∧
    Node.finish 2 true c3top =
      (((((c3top.writeln ⟨"##teamcity[" ++ "testFinished" ++ " nodeId='"
            ++ (NodeIdent.num 2).render ++ "'" ++ "]", some (.num 2)⟩).setNode 2
          { c3topLeaf with state := .finished }).setNode 1
          { c3topSuite with kind := .suite [2] 1 }).writeln
          ⟨"##teamcity[" ++ "testSuiteFinished" ++ " nodeId='"
            ++ (NodeIdent.num 1).render ++ "'" ++ "]", some (.num 1)⟩).setNode 1
          { c3topSuite with kind := .suite [2] 1, state := .finished }, none) := by
  refine ⟨?_, ?_, ?_⟩
  · exact (suite_autofinish_amended c3tree 5 1 c3q c3g [2, 5] 0 _
      rfl (by decide) rfl (by decide) (by decide) (Or.inl rfl) rfl rfl rfl).1
      (Or.inl (by decide))
  · have h := (suite_autofinish_amended c3tree 4 2 c3b c3p [3, 4] 1 _
      rfl (by decide) rfl (by decide) (by decide) (Or.inr rfl) rfl rfl rfl).2
      (by decide) (Or.inr rfl) (by decide) (by decide)
    exact ⟨h.1, h.2.1, h.2.2.2.2 1 c3g [2, 5] 0 rfl (by decide) rfl rfl⟩
  · have h := (suite_autofinish_amended c3top 2 1 c3topLeaf c3topSuite [2] 0 _
      rfl (by decide) rfl (by decide) (by decide) (Or.inr rfl) rfl rfl rfl).2
      (by decide) (Or.inr rfl) (by decide) (by decide)
    exact h.2.2.2.1 (Or.inr rfl)

end WebStormTree
